import Mathlib

set_option maxHeartbeats 1000000

/-! Shallow embedding of the procedural hardware-description builder in
`src/amaranth/hdl/_dsl.py` (class `Module` and its helpers), together with
theorems about its lowering algorithm.

Modelling conventions:
* Python dicts that are relied upon in insertion order (`OrderedDict`, plain
  dicts, `SignalDict`) are association lists; assigning a fresh key appends
  at the end, assigning an existing key replaces the value in place, exactly
  like a Python dict.
* `Signal` objects are numeric identifiers drawn from a counter in the
  builder state; an assignment's left-hand side is modelled as a single
  signal identifier.
* Python exceptions are an explicit error component: every operation returns
  the error (if any) together with the builder state as mutated so far,
  which mirrors how a raised exception leaves the shared `Module` object
  behind while propagating. The `try`/`finally` blocks of the context
  managers are translated branch by branch.
* Source locations, warning stack levels, the signed-condition advisory and
  the deprecated `reset=` FSM argument are not modelled; the remaining
  advisory warnings are recorded in an explicit list in the builder state.
* Constant-castable case patterns are modelled as non-negative constants
  (`Const.cast` of the out-of-scope value algebra always succeeds on them).
-/

/-- An advisory (non-fatal) diagnostic, as issued by `warnings.warn` in
`Module.Case` / `Module.Default`. -/
inductive Warn where
  | caseAfterDefault
  | oversizedPattern (value : Nat) (patternLen : Nat) (testWidth : Nat)
  deriving DecidableEq, Repr

/-- A fatal error: one constructor per `raise` site of `_dsl.py` that the
claims exercise, plus `keyError` for Python `KeyError`/`TypeError` raised by
dict lookups on malformed states and `popEmptyStack` for `list.pop` on an
empty control stack. -/
inductive BuildErr where
  | popEmptyStack
  | keyError
  | scopeError (construct : String)
  | elifWithoutIf
  | elseWithoutIf
  | casePatternChars (p : String)
  | casePatternWidth (p : String) (testWidth : Nat)
  | driverConflict (signal : Nat) (newDomain : String) (oldDomain : String)
  | fsmCombDomain (domain : String)
  | stateUndefined (name : String)
  | stateDefined (name : String)
  | nextOutsideState
  deriving DecidableEq, Repr

/-- A `Case` pattern as accepted by `Module.Case`: a bit string over
`01- \t`, or a constant-castable value. -/
inductive Pattern where
  | str (s : String)
  | val (n : Nat)
  deriving DecidableEq, Repr

/-- A key of the `cases` ordered dict handed to the `Switch` statement
constructor by `Module._pop_ctrl`: a match string or `None` for an
`If`-chain lowering, a tuple of patterns for a `Switch` lowering, an integer
encoding for an `FSM` lowering. -/
inductive CaseKey where
  | ifPat (m : Option String)
  | pats (ps : List Pattern)
  | enc (n : Nat)
  deriving DecidableEq, Repr

mutual
/-- The fragment of the out-of-scope value algebra (`amaranth.hdl._ast`)
that `_dsl.py` constructs or queries: signals, constants, the boolean
reduction `.bool()`, concatenation `Cat`, and the equality operator
against an integer used for FSM "ongoing" signals. -/
inductive Expr where
  | var (id : Nat) (width : Nat)
  | natConst (value : Nat) (width : Nat)
  | boolReduce (e : Expr)
  | cat (es : ExprList)
  | eqConst (e : Expr) (value : Nat)
inductive ExprList where
  | nil
  | cons (e : Expr) (rest : ExprList)
end

mutual
/-- Bit width of an expression (`len(value)` in the source); `Cat` is the
sum of its operands' widths, `.bool()` and `==` produce one bit. -/
def exprWidth : Expr → Nat
  | .var _ w => w
  | .natConst _ w => w
  | .boolReduce _ => 1
  | .cat es => exprListWidth es
  | .eqConst _ _ => 1
def exprListWidth : ExprList → Nat
  | .nil => 0
  | .cons e rest => exprWidth e + exprListWidth rest
end

def ExprList.ofList : List Expr → ExprList
  | [] => .nil
  | e :: r => .cons e (ExprList.ofList r)

mutual
/-- A statement as accumulated by the builder: an assignment (left-hand
side modelled as one signal id), a property check, the late-bound
`FSMNextStatement` (identified by the owning FSM's registry index and the
target state name), or a lowered `Switch` node. -/
inductive Stmt where
  | assign (lhs : Nat) (rhs : Expr)
  | propCheck (kind : String) (test : Expr)
  | fsmNext (fsmId : Nat) (target : String)
  | switch (test : Expr) (cases : Cases)
/-- The ordered case map of a lowered `Switch` node. All `_pop_ctrl`
lowerings insert pairwise distinct keys, so Python's dict-key assignment
coincides with appending in order. -/
inductive Cases where
  | nil
  | cons (key : CaseKey) (body : Stmts) (rest : Cases)
/-- A statement list (`_StatementList`). -/
inductive Stmts where
  | nil
  | cons (head : Stmt) (tail : Stmts)
end

def Stmts.append : Stmts → Stmts → Stmts
  | .nil, t => t
  | .cons s r, t => .cons s (Stmts.append r t)

def Stmts.push (l : Stmts) (s : Stmt) : Stmts := l.append (.cons s .nil)

def Stmts.ofList : List Stmt → Stmts
  | [] => .nil
  | s :: r => .cons s (Stmts.ofList r)

def Cases.length : Cases → Nat
  | .nil => 0
  | .cons _ _ r => Cases.length r + 1

def Cases.get? : Cases → Nat → Option (CaseKey × Stmts)
  | .nil, _ => none
  | .cons k b _, 0 => some (k, b)
  | .cons _ _ r, n+1 => Cases.get? r n

/-- Ordered-dict lookup on an association list (first matching key). -/
def alLookup {κ α : Type} [DecidableEq κ] : List (κ × α) → κ → Option α
  | [], _ => none
  | p :: rest, key => if p.1 = key then some p.2 else alLookup rest key

/-- Ordered-dict assignment: replace in place if the key is present,
append at the end otherwise — Python `d[key] = value`. -/
def alSet {κ α : Type} [DecidableEq κ] : List (κ × α) → κ → α → List (κ × α)
  | [], key, v => [(key, v)]
  | p :: rest, key, v => if p.1 = key then (key, v) :: rest else p :: alSet rest key v

def hasKey {κ α : Type} [DecidableEq κ] (m : List (κ × α)) (k : κ) : Bool :=
  (alLookup m k).isSome

/-- A per-domain statement accumulator (`Module._statements`): domain name
to statement list, in insertion order. -/
abbrev StmtMap := List (String × Stmts)

/-- Python `m.get(dom, [])`. -/
def stmtGet (m : StmtMap) (dom : String) : Stmts := (alLookup m dom).getD .nil

/-- Python `m.setdefault(dom, []).append(s)`. -/
def stmtAppend (m : StmtMap) (dom : String) (s : Stmt) : StmtMap :=
  alSet m dom ((stmtGet m dom).push s)

def addDomain (acc : List String) (dom : String) : List String :=
  if dom ∈ acc then acc else acc ++ [dom]

/-- The ordered set of domains touched by any of the given bodies
(`domains[domain] = None` loop in `_pop_ctrl`). -/
def domainsOf (bodies : List StmtMap) : List String :=
  bodies.foldl (fun acc body => body.foldl (fun a p => addDomain a p.1) acc) []

/-- The per-signal driving-domain registry entry value is the domain name. -/
structure SigInfo where
  id : Nat
  width : Nat
  init : Nat
  deriving DecidableEq, Repr

/-- Data of an open `If`/`Elif`/`Else` chain frame. -/
structure IfData where
  depth : Nat
  tests : List Expr
  bodies : List StmtMap

/-- Data of an open `Switch` frame: the discriminant and the ordered map
from registered pattern tuple to captured per-domain body. -/
structure SwitchData where
  test : Expr
  cases : List (List Pattern × StmtMap)

/-- Data of an open `FSM` frame (one Python `fsm_data` dict, stored in the
builder's registry so that aliasing through `FSM` handles and late-bound
statements is preserved). -/
structure FsmData where
  name : String
  init : Option String
  domain : String
  encoding : List (String × Nat)
  decoding : List (Nat × String)
  ongoing : List (String × Nat)
  states : List (String × StmtMap)
  signal : Option SigInfo

/-- One entry of `Module._ctrl_stack`. The head of the list is the top of
the stack. -/
inductive Frame where
  | ifF (d : IfData)
  | switchF (d : SwitchData)
  | fsmF (id : Nat)

/-- The mutable state of a `Module` builder. `depth` is
`self.domain._depth`, the monotone nesting counter; `fsmDatas` is the
registry of FSM frame dicts (Python object identity becomes an index);
`nextSig` is the fresh-`Signal` counter. -/
structure Builder where
  statements : StmtMap
  ctrl_context : Option String
  ctrl_stack : List Frame
  top_comb : Stmts
  driving : List (Nat × String)
  fsmDatas : List FsmData
  generated : List (String × Nat)
  warnings : List Warn
  depth : Nat
  nextSig : Nat

def emptyBuilder : Builder :=
  { statements := [], ctrl_context := none, ctrl_stack := [], top_comb := .nil,
    driving := [], fsmDatas := [], generated := [], warnings := [],
    depth := 0, nextSig := 0 }

/-! ### Lowering of a closed `If` frame (`_pop_ctrl`, the `name == "If"` arm) -/

def dashes (k : Nat) : List Char := List.replicate k '-'

/-- The priority match string for branch `i` of an `n`-test chain:
`("1" + "-" * i).rjust(n, "-")` (in the source, `len(tests) - 1 = i` at the
moment of construction). -/
def ifMatchChars (nTests i : Nat) : List Char :=
  dashes (nTests - (i + 1)) ++ '1' :: dashes i

def ifMatchStr (nTests i : Nat) : String := String.mk (ifMatchChars nTests i)

/-- Character of a match string at a given bit position, counting position
0 as the rightmost character (the least significant concatenated test). -/
def bitAt (l : List Char) (pos : Nat) : Char := l.getD (l.length - 1 - pos) ' '

/-- Source `if len(if_test) != 1: if_test = if_test.bool()`. -/
def boolReduced (e : Expr) : Expr := if exprWidth e = 1 then e else .boolReduce e

/-- The `zip(if_tests + [None], if_bodies)` loop of the `If` lowering:
collects the boolean-reduced tests and builds the ordered case map for one
domain. `i` counts the tests consumed so far. -/
def ifCasesGo (dom : String) (nTests : Nat) :
    List (Option Expr) → List StmtMap → Nat → List Expr × Cases
  | _, [], _ => ([], .nil)
  | [], _ :: _, _ => ([], .nil)
  | some t :: ts, body :: bs, i =>
    let r := ifCasesGo dom nTests ts bs (i + 1)
    (boolReduced t :: r.1,
     .cons (.ifPat (some (ifMatchStr nTests i))) (stmtGet body dom) r.2)
  | none :: ts, body :: bs, i =>
    let r := ifCasesGo dom nTests ts bs i
    (r.1, .cons (.ifPat none) (stmtGet body dom) r.2)

/-- The single `Switch` node emitted for one domain by the `If` lowering. -/
def ifNode (tests : List Expr) (bodies : List StmtMap) (dom : String) : Stmt :=
  let r := ifCasesGo dom tests.length (tests.map some ++ [none]) bodies 0
  .switch (.cat (ExprList.ofList r.1)) r.2

/-- The per-domain emission loop shared by every `_pop_ctrl` arm:
`self._statements.setdefault(domain, []).append(node)` once per touched
domain. -/
def appendNodes (nodeOf : String → Stmt) (doms : List String) (b : Builder) : Builder :=
  doms.foldl
    (fun bb dom => {bb with statements := stmtAppend bb.statements dom (nodeOf dom)}) b

def ifLower (d : IfData) (b : Builder) : Builder :=
  appendNodes (ifNode d.tests d.bodies) (domainsOf d.bodies) b

/-! ### Lowering of a closed `Switch` frame -/

def switchCasesNode (cs : List (List Pattern × StmtMap)) (dom : String) : Cases :=
  match cs with
  | [] => .nil
  | (ps, m) :: rest => .cons (.pats ps) (stmtGet m dom) (switchCasesNode rest dom)

def switchLower (sd : SwitchData) (b : Builder) : Builder :=
  appendNodes (fun dom => .switch sd.test (switchCasesNode sd.cases dom))
    (domainsOf (sd.cases.map (·.2))) b

/-! ### Lowering of a closed `FSM` frame -/

/-- Floor of the base-2 logarithm, computed with a structural fuel
argument so that concrete instances evaluate inside the kernel; agrees
with `Nat.log2` whenever the fuel is at least the argument. -/
def log2Go : Nat → Nat → Nat
  | 0, _ => 0
  | fuel+1, n => if n ≥ 2 then log2Go fuel (n / 2) + 1 else 0

/-- Modelled from the spec: `Shape.cast(range(n))` of the out-of-scope
value algebra — the width of a signal able to hold the values `0 .. n-1`
(zero when there is at most one value). Irrelevant to every claim. -/
def rangeWidth (n : Nat) : Nat := if n ≤ 1 then 0 else log2Go (n - 1) (n - 1) + 1

/-- The encoding of the initial state: `fsm_encoding[fsm_init]` when an
initial state was configured, else `fsm_encoding[next(iter(fsm_states))]`
(the first state *declared*); `none` models the Python `KeyError`. -/
def fsmInitEnc (fd : FsmData) : Option Nat :=
  match fd.init with
  | none =>
    match fd.states.head? with
    | some p => alLookup fd.encoding p.1
    | none => none
  | some nm => alLookup fd.encoding nm

def fsmCasesNode (encoding : List (String × Nat)) (states : List (String × StmtMap))
    (dom : String) : Cases :=
  match states with
  | [] => .nil
  | (nm, m) :: rest =>
    .cons (.enc ((alLookup encoding nm).getD 0)) (stmtGet m dom)
      (fsmCasesNode encoding rest dom)

/-- Source `sig.eq(Operator("==", [fsm_signal, fsm_encoding[name]]))`; the
encoding lookup cannot miss because `ongoing` and `encoding` always gain
keys together. -/
def ongoingStmt (sig : Expr) (encoding : List (String × Nat)) (p : String × Nat) : Stmt :=
  .assign p.2 (.eqConst sig ((alLookup encoding p.1).getD 0))

def fsmLower (id : Nat) (b : Builder) : Option BuildErr × Builder :=
  match b.fsmDatas.get? id with
  | none => (some .keyError, b)
  | some fd =>
    if fd.states.isEmpty then
      let si : SigInfo := { id := b.nextSig, width := 0, init := 0 }
      (none, {b with fsmDatas := b.fsmDatas.set id {fd with signal := some si},
                     nextSig := b.nextSig + 1})
    else
      match fsmInitEnc fd with
      | none => (some .keyError, b)
      | some initVal =>
        let decoding := fd.encoding.foldl (fun dec p => alSet dec p.2 p.1) fd.decoding
        let si : SigInfo :=
          { id := b.nextSig, width := rangeWidth fd.encoding.length, init := initVal }
        let sigE : Expr := .var si.id si.width
        let b1 := {b with fsmDatas := b.fsmDatas.set id {fd with decoding := decoding,
                                                                 signal := some si},
                          nextSig := b.nextSig + 1}
        let b2 := {b1 with top_comb :=
          b1.top_comb.append (Stmts.ofList (fd.ongoing.map (ongoingStmt sigE fd.encoding)))}
        (none, appendNodes (fun dom => .switch sigE (fsmCasesNode fd.encoding fd.states dom))
          (domainsOf (fd.states.map (·.2))) b2)

/-! ### The control stack (`_pop_ctrl`, `_flush_ctrl`, `_set_ctrl`) -/

def popCtrl (b : Builder) : Option BuildErr × Builder :=
  match b.ctrl_stack with
  | [] => (some .popEmptyStack, b)
  | f :: rest =>
    let b1 := {b with ctrl_stack := rest}
    match f with
    | .ifF d => (none, ifLower d b1)
    | .switchF sd => (none, switchLower sd b1)
    | .fsmF id => fsmLower id b1

/-- Source `while len(self._ctrl_stack) > self.domain._depth: self._pop_ctrl()`,
with fuel bounding the iteration count (each pop removes one frame). -/
def flushGo : Nat → Builder → Option BuildErr × Builder
  | 0, b => (none, b)
  | n+1, b =>
    if b.ctrl_stack.length > b.depth then
      match popCtrl b with
      | (none, b1) => flushGo n b1
      | r => r
    else (none, b)

def flushCtrl (b : Builder) : Option BuildErr × Builder :=
  flushGo b.ctrl_stack.length b

def setCtrl (b : Builder) (f : Frame) : Option BuildErr × Builder :=
  match flushCtrl b with
  | (some e, b1) => (some e, b1)
  | (none, b1) => (none, {b1 with ctrl_stack := f :: b1.ctrl_stack})

/-- Iterate `_pop_ctrl` a given number of times, stopping at the first error. -/
def popN : Nat → Builder → Option BuildErr × Builder
  | 0, b => (none, b)
  | n+1, b =>
    match popCtrl b with
    | (none, b1) => popN n b1
    | r => r

/-- Source `while self._ctrl_stack: self._pop_ctrl()` (`Module._flush`). -/
def flushAllGo : Nat → Builder → Option BuildErr × Builder
  | 0, b => (none, b)
  | n+1, b =>
    match b.ctrl_stack with
    | [] => (none, b)
    | _ => match popCtrl b with
      | (none, b1) => flushAllGo n b1
      | r => r

def flushAll (b : Builder) : Option BuildErr × Builder :=
  flushAllGo b.ctrl_stack.length b

/-! ### Adding statements (`_add_statement`) -/

/-- Modelled from the spec: `amaranth.utils.bits_for` (not under `src/`)
for a non-negative value — the minimal bit-width of the value, one bit for
zero. -/
def bitsFor (n : Nat) : Nat := if n = 0 then 1 else log2Go n n + 1

def addStmtsGo : List Stmt → String → Builder → Option BuildErr × Builder
  | [], _, b => (none, b)
  | stmt :: rest, domain, b =>
    match stmt with
    | .assign s rhs =>
      match alLookup b.driving s with
      | none =>
        addStmtsGo rest domain
          {b with driving := alSet b.driving s domain,
                  statements := stmtAppend b.statements domain (.assign s rhs)}
      | some d0 =>
        if d0 = domain then
          addStmtsGo rest domain
            {b with statements := stmtAppend b.statements domain (.assign s rhs)}
        else (some (.driverConflict s domain d0), b)
    | other =>
      addStmtsGo rest domain {b with statements := stmtAppend b.statements domain other}

/-- Source `Module._add_statement`. The `depth` argument mirrors the Python
parameter, which the method does not use: the flush loop reads the
builder's own depth counter. Every statement variant the model has is one
of the accepted kinds, so the "only assignments and property checks"
error cannot arise. -/
def addStatement (assigns : List Stmt) (domain : String) (_depth : Nat) (b : Builder) :
    Option BuildErr × Builder :=
  match flushCtrl b with
  | (some e, b1) => (some e, b1)
  | (none, b1) => addStmtsGo assigns domain b1

/-! ### The scoped constructs -/

def checkContext (b : Builder) (construct : String) (ctx : Option String) :
    Option BuildErr :=
  if b.ctrl_context = ctx then none else some (.scopeError construct)

/-- Append the captured test and body to the open `If` frame at the top of
the stack (`if_data["tests"].append(cond)` etc.; in Python the captured
frame dict is mutated directly, and in every flow that reaches this point
it is the top of the stack). -/
def ifAppendTop (b : Builder) (cond : Option Expr) (stmts : StmtMap) : Builder :=
  match b.ctrl_stack with
  | .ifF d :: rest =>
    {b with ctrl_stack :=
      Frame.ifF {d with tests := d.tests ++ cond.toList, bodies := d.bodies ++ [stmts]} :: rest}
  | _ => b

def runIf (cond : Expr) (body : Builder → Option BuildErr × Builder) (b : Builder) :
    Option BuildErr × Builder :=
  match checkContext b "If" none with
  | some e => (some e, b)
  | none =>
    match setCtrl b (.ifF { depth := b.depth, tests := [], bodies := [] }) with
    | (some e, b1) => (some e, b1)
    | (none, b1) =>
      let outer := b1.statements
      let b2 := {b1 with statements := [], depth := b1.depth + 1}
      match body b2 with
      | (some e, b3) => (some e, {b3 with depth := b3.depth - 1, statements := outer})
      | (none, b3) =>
        match flushCtrl b3 with
        | (some e, b4) => (some e, {b4 with depth := b4.depth - 1, statements := outer})
        | (none, b4) =>
          let b5 := ifAppendTop b4 (some cond) b4.statements
          (none, {b5 with depth := b5.depth - 1, statements := outer})

def runElif (cond : Expr) (body : Builder → Option BuildErr × Builder) (b : Builder) :
    Option BuildErr × Builder :=
  match checkContext b "Elif" none with
  | some e => (some e, b)
  | none =>
    match b.ctrl_stack with
    | .ifF d :: _ =>
      if d.depth ≠ b.depth then (some .elifWithoutIf, b)
      else
        let outer := b.statements
        let b2 := {b with statements := [], depth := b.depth + 1}
        match body b2 with
        | (some e, b3) => (some e, {b3 with depth := b3.depth - 1, statements := outer})
        | (none, b3) =>
          match flushCtrl b3 with
          | (some e, b4) => (some e, {b4 with depth := b4.depth - 1, statements := outer})
          | (none, b4) =>
            let b5 := ifAppendTop b4 (some cond) b4.statements
            (none, {b5 with depth := b5.depth - 1, statements := outer})
    | _ => (some .elifWithoutIf, b)

def runElse (body : Builder → Option BuildErr × Builder) (b : Builder) :
    Option BuildErr × Builder :=
  match checkContext b "Else" none with
  | some e => (some e, b)
  | none =>
    match b.ctrl_stack with
    | .ifF d :: _ =>
      if d.depth ≠ b.depth then (some .elseWithoutIf, b)
      else
        let outer := b.statements
        let b2 := {b with statements := [], depth := b.depth + 1}
        match body b2 with
        | (some e, b3) => (some e, {b3 with depth := b3.depth - 1, statements := outer})
        | (none, b3) =>
          match flushCtrl b3 with
          | (some e, b4) => (some e, {b4 with depth := b4.depth - 1, statements := outer})
          | (none, b4) =>
            let b5 := ifAppendTop b4 none b4.statements
            popCtrl {b5 with depth := b5.depth - 1, statements := outer}
    | _ => (some .elseWithoutIf, b)

def runSwitch (test : Expr) (body : Builder → Option BuildErr × Builder) (b : Builder) :
    Option BuildErr × Builder :=
  match checkContext b "Switch" none with
  | some e => (some e, b)
  | none =>
    match setCtrl b (.switchF { test := test, cases := [] }) with
    | (some e, b1) => (some e, b1)
    | (none, b1) =>
      let b2 := {b1 with ctrl_context := some "Switch", depth := b1.depth + 1}
      match body b2 with
      | (some e, b3) => (some e, {b3 with depth := b3.depth - 1, ctrl_context := none})
      | (none, b3) => popCtrl {b3 with depth := b3.depth - 1, ctrl_context := none}

/-- The pattern-validation loop of `Module.Case`: builds `new_patterns`,
dropping oversized constants with one advisory each, and stopping at the
first fatal pattern error. A string pattern's width check strips the
whitespace the character check has already restricted to blank and tab. -/
def isPatChar (c : Char) : Bool := c == '0' || c == '1' || c == '-' || c == ' ' || c == '\t'

def isWs (c : Char) : Bool := c == ' ' || c == '\t'

def validateGo (testWidth : Nat) :
    List Pattern → List Pattern → List Warn → Option BuildErr × List Pattern × List Warn
  | [], acc, ws => (none, acc, ws)
  | .str s :: ps, acc, ws =>
    if s.data.any (fun c => !(isPatChar c)) then (some (.casePatternChars s), acc, ws)
    else if (s.data.filter (fun c => !(isWs c))).length ≠ testWidth then
      (some (.casePatternWidth s testWidth), acc, ws)
    else validateGo testWidth ps (acc ++ [.str s]) ws
  | .val v :: ps, acc, ws =>
    let plen := bitsFor v
    let plen := if v = 0 then 0 else plen
    if plen > testWidth then
      validateGo testWidth ps acc (ws ++ [.oversizedPattern v plen testWidth])
    else validateGo testWidth ps (acc ++ [.val v]) ws

/-- Register a validated case body in the open `Switch` frame:
`if new_patterns and new_patterns not in switch_data["cases"]`. -/
def caseRegister (b : Builder) (np : List Pattern) (stmts : StmtMap) : Builder :=
  match b.ctrl_stack with
  | .switchF sd :: rest =>
    if np ≠ [] ∧ ¬ hasKey sd.cases np then
      {b with ctrl_stack := .switchF {sd with cases := sd.cases ++ [(np, stmts)]} :: rest}
    else b
  | _ => b

/-- The "case defined after the default case" advisory issued by
`Module.Case` and `Module.Default` when the empty pattern tuple is
already registered. -/
def warnIfDefault (b : Builder) (sd : SwitchData) : Builder :=
  if hasKey sd.cases ([] : List Pattern) then
    {b with warnings := b.warnings ++ [.caseAfterDefault]}
  else b

def runCase (patterns : List Pattern) (body : Builder → Option BuildErr × Builder)
    (b : Builder) : Option BuildErr × Builder :=
  match checkContext b "Case" (some "Switch") with
  | some e => (some e, b)
  | none =>
    match b.ctrl_stack with
    | .switchF sd :: _ =>
      let b0 := warnIfDefault b sd
      match validateGo (exprWidth sd.test) patterns [] [] with
      | (some e, _, ws) => (some e, {b0 with warnings := b0.warnings ++ ws})
      | (none, np, ws) =>
        let b1 := {b0 with warnings := b0.warnings ++ ws}
        let outer := b1.statements
        let b2 := {b1 with statements := [], ctrl_context := none}
        match body b2 with
        | (some e, b3) => (some e, {b3 with ctrl_context := some "Switch", statements := outer})
        | (none, b3) =>
          match flushCtrl b3 with
          | (some e, b4) =>
            (some e, {b4 with ctrl_context := some "Switch", statements := outer})
          | (none, b4) =>
            let b5 := caseRegister b4 np b4.statements
            (none, {b5 with ctrl_context := some "Switch", statements := outer})
    | _ => (some .keyError, b)

/-- Source `Module.Default`: registers the empty pattern tuple if absent. -/
def defaultRegister (b : Builder) (stmts : StmtMap) : Builder :=
  match b.ctrl_stack with
  | .switchF sd :: rest =>
    if ¬ hasKey sd.cases ([] : List Pattern) then
      {b with ctrl_stack := .switchF {sd with cases := sd.cases ++ [([], stmts)]} :: rest}
    else b
  | _ => b

def runDefault (body : Builder → Option BuildErr × Builder) (b : Builder) :
    Option BuildErr × Builder :=
  match checkContext b "Default" (some "Switch") with
  | some e => (some e, b)
  | none =>
    match b.ctrl_stack with
    | .switchF sd :: _ =>
      let b0 := warnIfDefault b sd
      let outer := b0.statements
      let b2 := {b0 with statements := [], ctrl_context := none}
      match body b2 with
      | (some e, b3) => (some e, {b3 with ctrl_context := some "Switch", statements := outer})
      | (none, b3) =>
        match flushCtrl b3 with
        | (some e, b4) =>
          (some e, {b4 with ctrl_context := some "Switch", statements := outer})
        | (none, b4) =>
          let b5 := defaultRegister b4 b4.statements
          (none, {b5 with ctrl_context := some "Switch", statements := outer})
    | _ => (some .keyError, b)

/-! ### The FSM constructs -/

def newFsmData (name : String) (init : Option String) (domain : String) : FsmData :=
  { name := name, init := init, domain := domain, encoding := [], decoding := [],
    ongoing := [], states := [], signal := none }

/-- The `for state_name in fsm_data["encoding"]` check run at normal exit
of the FSM construct: the first referenced state without a declared body. -/
def fsmMissingState (b : Builder) (id : Nat) : Option String :=
  match b.fsmDatas.get? id with
  | none => none
  | some fd => (fd.encoding.find? (fun p => !(hasKey fd.states p.1))).map (·.1)

/-- The builder state on entry of an `FSM` body: the frame dict is created
and pushed (after the flush), the `FSM` handle recorded among the
generated artifacts, the context set and the depth bumped. -/
def fsmEnterState (b : Builder) (init : Option String) (domain name : String) : Builder :=
  {b with fsmDatas := b.fsmDatas ++ [newFsmData name init domain],
          ctrl_stack := .fsmF b.fsmDatas.length :: b.ctrl_stack,
          generated := alSet b.generated name b.fsmDatas.length,
          ctrl_context := some "FSM", depth := b.depth + 1}

def runFSM (init : Option String) (domain name : String)
    (body : Builder → Option BuildErr × Builder) (b : Builder) :
    Option BuildErr × Builder :=
  match checkContext b "FSM" none with
  | some e => (some e, b)
  | none =>
    if domain = "comb" then (some (.fsmCombDomain domain), b)
    else
      match flushCtrl b with
      | (some e, b1) => (some e, b1)
      | (none, b1) =>
        let id := b1.fsmDatas.length
        let b3 := fsmEnterState b1 init domain name
        match body b3 with
        | (some e, b4) => (some e, {b4 with depth := b4.depth - 1, ctrl_context := none})
        | (none, b4) =>
          match fsmMissingState b4 id with
          | some nm =>
            (some (.stateUndefined nm), {b4 with depth := b4.depth - 1, ctrl_context := none})
          | none => popCtrl {b4 with depth := b4.depth - 1, ctrl_context := none}

/-- Register the captured state body (`fsm_data["states"][name] = ...`;
the name cannot already be a key, the duplicate check raised earlier). -/
def stateRegister (b : Builder) (id : Nat) (name : String) (stmts : StmtMap) : Builder :=
  match b.fsmDatas.get? id with
  | none => b
  | some fd => {b with fsmDatas := b.fsmDatas.set id {fd with states := fd.states ++ [(name, stmts)]}}

/-- Register a state name on first reference: give it the next unused
encoding (`len(encoding)`) and create its "ongoing" indicator signal.
This insertion is shared by `Module.State`, `FSM.ongoing` and the
`m.next` setter. -/
def fsmAddName (b : Builder) (id : Nat) (fd : FsmData) (name : String) : Builder :=
  if (alLookup fd.encoding name).isNone then
    {b with fsmDatas := b.fsmDatas.set id
              {fd with encoding := fd.encoding ++ [(name, fd.encoding.length)],
                       ongoing := fd.ongoing ++ [(name, b.nextSig)]},
            nextSig := b.nextSig + 1}
  else b

def runState (name : String) (body : Builder → Option BuildErr × Builder) (b : Builder) :
    Option BuildErr × Builder :=
  match checkContext b "FSM State" (some "FSM") with
  | some e => (some e, b)
  | none =>
    match b.ctrl_stack with
    | .fsmF id :: _ =>
      match b.fsmDatas.get? id with
      | none => (some .keyError, b)
      | some fd =>
        if hasKey fd.states name then (some (.stateDefined name), b)
        else
          let b0 := fsmAddName b id fd name
          let outer := b0.statements
          let b2 := {b0 with statements := [], ctrl_context := none}
          match body b2 with
          | (some e, b3) => (some e, {b3 with ctrl_context := some "FSM", statements := outer})
          | (none, b3) =>
            match flushCtrl b3 with
            | (some e, b4) =>
              (some e, {b4 with ctrl_context := some "FSM", statements := outer})
            | (none, b4) =>
              let b5 := stateRegister b4 id name b4.statements
              (none, {b5 with ctrl_context := some "FSM", statements := outer})
    | _ => (some .keyError, b)

/-- First FSM frame from the top of the stack
(`for ... in enumerate(reversed(self._ctrl_stack))`). -/
def findFsm : List Frame → Option Nat
  | [] => none
  | .fsmF id :: _ => some id
  | _ :: rest => findFsm rest

/-- Source `FSM.ongoing(name)` of the innermost open FSM (the Python method
closes over its own frame dict; the claims only exercise the innermost
FSM). Registers the state on first reference and returns its indicator
signal. A plain function: it can raise nothing. -/
def fsmOngoing (name : String) (b : Builder) : Builder × Option Nat :=
  match findFsm b.ctrl_stack with
  | none => (b, none)
  | some id =>
    match b.fsmDatas.get? id with
    | none => (b, none)
    | some fd =>
      (fsmAddName b id fd name,
       if (alLookup fd.encoding name).isNone then some b.nextSig
       else alLookup fd.ongoing name)

/-- The `m.next = name` setter: finds the innermost FSM on the stack,
registers the state on first reference, and appends a late-bound
transition statement under the FSM's driving domain. -/
def nextState (name : String) (b : Builder) : Option BuildErr × Builder :=
  if b.ctrl_context = some "FSM" then (some .nextOutsideState, b)
  else
    match findFsm b.ctrl_stack with
    | none => (some .nextOutsideState, b)
    | some id =>
      match b.fsmDatas.get? id with
      | none => (some .keyError, b)
      | some fd =>
        let b0 := fsmAddName b id fd name
        addStatement [.fsmNext id name] fd.domain b0.ctrl_stack.length b0

/-! ### Statement resolution and elaboration -/

/-- Width of an inferred constant (`Const(value)` of the value algebra). -/
def constWidth (v : Nat) : Nat := if v = 0 then 1 else log2Go v v + 1

mutual
/-- Source `resolve_statement`: replaces a late-bound FSM transition with the
concrete assignment `state_signal.eq(encoding[target])` and recurses into
`Switch` nodes. The fallback arms are unreachable once the owning FSM
frame was closed (the registry entry and its signal then exist). -/
def resolveStmt (reg : List FsmData) : Stmt → Stmt
  | .assign l r => .assign l r
  | .propCheck k t => .propCheck k t
  | .fsmNext id target =>
    match reg.get? id with
    | some fd =>
      match fd.signal with
      | some si =>
        .assign si.id (.natConst ((alLookup fd.encoding target).getD 0)
          (constWidth ((alLookup fd.encoding target).getD 0)))
      | none => .fsmNext id target
    | none => .fsmNext id target
  | .switch t cs => .switch t (resolveCases reg cs)
def resolveCases (reg : List FsmData) : Cases → Cases
  | .nil => .nil
  | .cons k body rest => .cons k (resolveStmts reg body) (resolveCases reg rest)
def resolveStmts (reg : List FsmData) : Stmts → Stmts
  | .nil => .nil
  | .cons s rest => .cons (resolveStmt reg s) (resolveStmts reg rest)
end

mutual
/-- Source `_lhs_signals()` of a statement, before set union. -/
def stmtLhs : Stmt → List Nat
  | .assign l _ => [l]
  | .propCheck _ _ => []
  | .fsmNext _ _ => []
  | .switch _ cs => casesLhs cs
def casesLhs : Cases → List Nat
  | .nil => []
  | .cons _ body rest => stmtsLhsRaw body ++ casesLhs rest
def stmtsLhsRaw : Stmts → List Nat
  | .nil => []
  | .cons s rest => stmtLhs s ++ stmtsLhsRaw rest
end

def dedupNat (l : List Nat) : List Nat :=
  l.foldl (fun acc n => if n ∈ acc then acc else acc ++ [n]) []

/-- The set of left-hand-side signals of a statement list, in first
occurrence order. -/
def stmtsLhs (l : Stmts) : List Nat := dedupNat (stmtsLhsRaw l)

/-- Modelled from the spec: the IR container (`amaranth.hdl._ir.Fragment`)
is not under `src/`; per the spec's external-interface section it records,
for this core, statement lists keyed by domain name and signal-to-domain
driver registrations. Submodule, clock-domain and generated-artifact
registration are not needed by any claim and are omitted. -/
structure Fragment where
  statements : List (String × Stmts)
  drivers : List (Nat × String)

def fragAddStatements (m : List (String × Stmts)) (dom : String) (ss : Stmts) :
    List (String × Stmts) :=
  alSet m dom (((alLookup m dom).getD .nil).append ss)

/-- One iteration of the per-domain emission loop of `Module.elaborate`:
resolve the domain's statements, add them to the fragment under the
domain, and register their left-hand signals as drivers for it. -/
def elabStep (reg : List FsmData) (fr : Fragment) (p : String × Stmts) : Fragment :=
  let resolved := resolveStmts reg p.2
  { statements := fragAddStatements fr.statements p.1 resolved,
    drivers := fr.drivers ++ (stmtsLhs resolved).map (fun s => (s, p.1)) }

/-- Source `Module.elaborate` restricted to the statement flow: flush every open
frame, then per domain resolve the statements, add them to the fragment
and register their left-hand signals as drivers; finally add the
top-level combinational accumulator under `"comb"` and register its
left-hand signals as `"comb"`-driven. -/
def elaborate (b : Builder) : Option BuildErr × Builder × Fragment :=
  match flushAll b with
  | (some e, b1) => (some e, b1, { statements := [], drivers := [] })
  | (none, b1) =>
    let frag0 : Fragment := { statements := [], drivers := [] }
    let frag1 := b1.statements.foldl (elabStep b1.fsmDatas) frag0
    let frag2 := { frag1 with
      statements := fragAddStatements frag1.statements "comb" b1.top_comb }
    let frag3 := { frag2 with
      drivers := frag2.drivers ++ (stmtsLhs b1.top_comb).map (fun s => (s, "comb")) }
    (none, b1, frag3)

/-! ### Concrete scenarios and auxiliary definitions used by the theorems -/

/-- The C1 failing input: an FSM with explicit initial state `"A"` whose
states are declared in the order `"B"`, `"A"`. -/
def c1Scenario : Option BuildErr × Builder :=
  runFSM (some "A") "sync" "fsm"
    (fun st =>
      match runState "B" (fun s2 => (none, s2)) st with
      | (none, st1) => runState "A" (fun s2 => (none, s2)) st1
      | r1 => r1) emptyBuilder

/-- The concrete sibling scenario for the C9 witness: a completed `If`
frame is still on the stack at depth 0 when a sibling construct opens. -/
def c9Frame : Frame :=
  .ifF { depth := 0, tests := [.var 1 1],
         bodies := [[("comb", .cons (.assign 2 (.natConst 1 1)) .nil)]] }

def c9Builder : Builder := {emptyBuilder with ctrl_stack := [c9Frame]}

def c9NewFrame : Frame := .switchF { test := .var 3 1, cases := [] }

/-- The first C3 witness step: drive signal 7 from `"comb"`. -/
def c3Step1 : Option BuildErr × Builder :=
  addStatement [.assign 7 (.natConst 1 1)] "comb" 0 emptyBuilder

/-- A body that always raises, for the C7 witness. -/
def c7Body : Builder → Option BuildErr × Builder := fun st => (some .keyError, st)

/-- The C6 witness scenario: the FSM body declares state `"A"` whose body
transitions to the never-declared `"X"`. -/
def c6Scenario : Option BuildErr × Builder :=
  runFSM none "sync" "fsm"
    (fun st => runState "A" (fun st2 => nextState "X" st2) st) emptyBuilder

/-- A builder positioned inside an FSM state body (frame on the stack,
context cleared by `State`), for the reference-time part of the witness. -/
def c6RefBuilder : Builder :=
  {fsmEnterState emptyBuilder none "sync" "fsm" with ctrl_context := none, depth := 2}

/-- Whether a constant case pattern can never match a discriminant of the
given width (its normalized width, with the source's zero special case,
exceeds the discriminant's). -/
def oversizedPat (tw : Nat) : Pattern → Bool
  | .str _ => false
  | .val v => decide ((if v = 0 then 0 else bitsFor v) > tw)

/-- The advisory emitted for an oversized constant pattern, if any. -/
def oversizedWarn (tw : Nat) : Pattern → Option Warn
  | .str _ => none
  | .val v =>
    if (if v = 0 then 0 else bitsFor v) > tw then
      some (.oversizedPattern v (if v = 0 then 0 else bitsFor v) tw)
    else none

/-- The C5 witness switch frame: a two-bit discriminant with no cases yet. -/
def c5Switch : SwitchData := { test := .var 1 2, cases := [] }

def c5Builder : Builder :=
  {emptyBuilder with ctrl_context := some "Switch",
                     ctrl_stack := [.switchF c5Switch], depth := 1}

/-- The C4 witness switch frame: the pattern tuple `("01",)` is already
registered with a body assigning 1 to signal 5. -/
def c4Switch : SwitchData :=
  { test := .var 1 2,
    cases := [([.str "01"], [("comb", .cons (.assign 5 (.natConst 1 1)) .nil)])] }

def c4Builder : Builder :=
  {emptyBuilder with ctrl_context := some "Switch",
                     ctrl_stack := [.switchF c4Switch], depth := 1}

/-- The C2 witness frame: `If(var 10) { y := 1 } Else { y := 0 }` in the
combinational domain — the spec's own example. -/
def c2IfData : IfData :=
  { depth := 0, tests := [.var 10 1],
    bodies := [[("comb", .cons (.assign 5 (.natConst 1 1)) .nil)],
               [("comb", .cons (.assign 5 (.natConst 0 1)) .nil)]] }

def c2Builder : Builder := {emptyBuilder with ctrl_stack := [.ifF c2IfData]}

/-- The C8 witness FSM frame data: one declared state `"A"` with a body in
the `"sync"` domain, its ongoing signal being signal 3. -/
def c8Fsm : FsmData :=
  { name := "fsm", init := none, domain := "sync",
    encoding := [("A", 0)], decoding := [], ongoing := [("A", 3)],
    states := [("A", [("sync", .cons (.assign 6 (.natConst 1 1)) .nil)])],
    signal := none }

def c8Builder : Builder :=
  {emptyBuilder with ctrl_stack := [.fsmF 0], fsmDatas := [c8Fsm], nextSig := 4}

/-! ## Lemma toolkit -/

theorem alLookup_alSet_self {κ α : Type} [DecidableEq κ] (m : List (κ × α)) (k : κ) (v : α) :
    alLookup (alSet m k v) k = some v := by
  induction m with
  | nil => simp [alSet, alLookup]
  | cons p rest ih =>
    by_cases h : p.1 = k
    · simp [alSet, alLookup, h]
    · simp only [alSet, if_neg h, alLookup]
      exact ih

theorem alLookup_alSet_other {κ α : Type} [DecidableEq κ] (m : List (κ × α)) (k k' : κ)
    (v : α) (h : k' ≠ k) : alLookup (alSet m k v) k' = alLookup m k' := by
  induction m with
  | nil =>
    simp only [alSet, alLookup]
    rw [if_neg (Ne.symm h)]
  | cons p rest ih =>
    by_cases hp : p.1 = k
    · subst hp
      have hne : ¬ p.1 = k' := fun hh => h hh.symm
      simp only [alSet, if_pos rfl, alLookup]
      rw [if_neg hne, if_neg hne]
    · simp only [alSet, if_neg hp, alLookup]
      by_cases hk : p.1 = k'
      · rw [if_pos hk, if_pos hk]
      · rw [if_neg hk, if_neg hk]
        exact ih

theorem stmtGet_stmtAppend_self (m : StmtMap) (d : String) (s : Stmt) :
    stmtGet (stmtAppend m d s) d = (stmtGet m d).push s := by
  unfold stmtAppend stmtGet
  rw [alLookup_alSet_self]
  rfl

theorem stmtGet_stmtAppend_other (m : StmtMap) (d d' : String) (s : Stmt) (h : d' ≠ d) :
    stmtGet (stmtAppend m d s) d' = stmtGet m d' := by
  unfold stmtAppend stmtGet
  rw [alLookup_alSet_other _ _ _ _ h]

theorem appendNodes_lookup_not_mem (nodeOf : String → Stmt) (doms : List String)
    (b : Builder) (dom : String) (h : dom ∉ doms) :
    stmtGet (appendNodes nodeOf doms b).statements dom = stmtGet b.statements dom := by
  induction doms generalizing b with
  | nil => rfl
  | cons d rest ih =>
    have hne : dom ≠ d := fun hh => h (hh ▸ List.mem_cons_self d rest)
    have hrest : dom ∉ rest := fun hh => h (List.mem_cons_of_mem d hh)
    unfold appendNodes
    simp only [List.foldl_cons]
    rw [show (List.foldl _ _ rest : Builder) = appendNodes nodeOf rest
          {b with statements := stmtAppend b.statements d (nodeOf d)} from rfl]
    rw [ih _ hrest]
    exact stmtGet_stmtAppend_other _ _ _ _ hne

theorem appendNodes_lookup_mem (nodeOf : String → Stmt) (doms : List String)
    (b : Builder) (dom : String) (hnd : doms.Nodup) (h : dom ∈ doms) :
    stmtGet (appendNodes nodeOf doms b).statements dom
      = (stmtGet b.statements dom).push (nodeOf dom) := by
  induction doms generalizing b with
  | nil => cases h
  | cons d rest ih =>
    unfold appendNodes
    simp only [List.foldl_cons]
    rw [show (List.foldl _ _ rest : Builder) = appendNodes nodeOf rest
          {b with statements := stmtAppend b.statements d (nodeOf d)} from rfl]
    rcases List.mem_cons.mp h with heq | hmem
    · subst heq
      have hnotin : dom ∉ rest := (List.nodup_cons.mp hnd).1
      rw [appendNodes_lookup_not_mem _ _ _ _ hnotin]
      exact stmtGet_stmtAppend_self _ _ _
    · have hne : dom ≠ d := by
        rintro rfl
        exact (List.nodup_cons.mp hnd).1 hmem
      rw [ih _ ((List.nodup_cons.mp hnd).2) hmem]
      rw [stmtGet_stmtAppend_other _ _ _ _ hne]

theorem appendNodes_fields (nodeOf : String → Stmt) (doms : List String) (b : Builder) :
    (appendNodes nodeOf doms b).ctrl_stack = b.ctrl_stack ∧
    (appendNodes nodeOf doms b).depth = b.depth ∧
    (appendNodes nodeOf doms b).top_comb = b.top_comb ∧
    (appendNodes nodeOf doms b).fsmDatas = b.fsmDatas ∧
    (appendNodes nodeOf doms b).nextSig = b.nextSig ∧
    (appendNodes nodeOf doms b).ctrl_context = b.ctrl_context ∧
    (appendNodes nodeOf doms b).driving = b.driving ∧
    (appendNodes nodeOf doms b).warnings = b.warnings := by
  induction doms generalizing b with
  | nil => exact ⟨rfl, rfl, rfl, rfl, rfl, rfl, rfl, rfl⟩
  | cons d rest ih =>
    unfold appendNodes
    simp only [List.foldl_cons]
    exact ih {b with statements := stmtAppend b.statements d (nodeOf d)}

theorem addDomain_nodup (acc : List String) (d : String) (h : acc.Nodup) :
    (addDomain acc d).Nodup := by
  unfold addDomain
  split
  · exact h
  · rename_i hnot
    rw [← List.concat_eq_append]
    exact List.Nodup.concat hnot h

theorem foldl_addDomain_nodup (body : StmtMap) (acc : List String) (h : acc.Nodup) :
    (body.foldl (fun a p => addDomain a p.1) acc).Nodup := by
  induction body generalizing acc with
  | nil => exact h
  | cons p rest ih =>
    simp only [List.foldl_cons]
    exact ih _ (addDomain_nodup _ _ h)

theorem domainsOf_nodup (bodies : List StmtMap) : (domainsOf bodies).Nodup := by
  unfold domainsOf
  suffices hgen : ∀ (bs : List StmtMap) (acc : List String), acc.Nodup →
      (bs.foldl (fun acc body => body.foldl (fun a p => addDomain a p.1) acc) acc).Nodup by
    exact hgen bodies [] List.nodup_nil
  intro bs
  induction bs with
  | nil => intro acc h; exact h
  | cons body rest ih =>
    intro acc h
    simp only [List.foldl_cons]
    exact ih _ (foldl_addDomain_nodup body acc h)

/-! ## C10 — an FSM may not be driven by the combinational domain -/

/-- Claim C10: opening an FSM with `domain="comb"` raises a fatal error
immediately and leaves the builder untouched — in particular no FSM frame
is pushed onto the control stack. -/
theorem fsm_comb_domain_rejected (init : Option String) (name : String)
    (body : Builder → Option BuildErr × Builder) (b : Builder)
    (hctx : b.ctrl_context = none) :
    runFSM init "comb" name body b = (some (.fsmCombDomain "comb"), b) := by
  unfold runFSM checkContext
  rw [hctx]
  simp

/-- Witness for C10 at a concrete builder. -/
theorem fsm_comb_domain_rejected_witness :
    runFSM none "comb" "fsm" (fun st => (none, st)) emptyBuilder
      = (some (.fsmCombDomain "comb"), emptyBuilder) :=
  fsm_comb_domain_rejected none "fsm" (fun st => (none, st)) emptyBuilder rfl

/-! ## C1 — FSM initial-state encoding -/

/-- Claim C1 is violated by the code: with states declared `B`, `A` and the
initial state explicitly set to `A`, the FSM closes without error but the
final encoding map still assigns first-reference encodings — `B ↦ 0`,
`A ↦ 1` — and only the state signal's reset value is set to `A`'s
encoding `1`. The chosen initial state does not have encoding `0`,
contradicting the claim and the source's own comment ("The FSM is encoded
such that the state with encoding 0 is always the init state"). -/
theorem fsm_explicit_init_encoding_failing_input :
    c1Scenario.1 = none ∧
    (c1Scenario.2.fsmDatas.get? 0).map (fun fd => alLookup fd.encoding "A")
      = some (some 1) ∧
    (c1Scenario.2.fsmDatas.get? 0).map (fun fd => alLookup fd.encoding "B")
      = some (some 0) ∧
    (c1Scenario.2.fsmDatas.get? 0).map (fun fd => fd.signal.map (fun si => si.init))
      = some (some 1) := by
  exact ⟨rfl, rfl, rfl, rfl⟩

/-! ## Control-stack lemmas -/

theorem fsmLower_fields (id : Nat) (b : Builder) :
    (fsmLower id b).2.ctrl_stack = b.ctrl_stack ∧
    (fsmLower id b).2.depth = b.depth ∧
    ((fsmLower id b).1.isSome → (fsmLower id b).2.statements = b.statements) := by
  unfold fsmLower
  split
  · exact ⟨rfl, rfl, fun _ => rfl⟩
  · split
    · exact ⟨rfl, rfl, fun hc => by simp at hc⟩
    · split
      · exact ⟨rfl, rfl, fun _ => rfl⟩
      · exact ⟨(appendNodes_fields _ _ _).1, (appendNodes_fields _ _ _).2.1,
               fun hc => by simp at hc⟩

theorem popCtrl_stack (b : Builder) : (popCtrl b).2.ctrl_stack = b.ctrl_stack.tail := by
  unfold popCtrl
  cases hs : b.ctrl_stack with
  | nil => exact hs
  | cons f rest =>
    cases f with
    | ifF d => exact (appendNodes_fields _ _ _).1
    | switchF sd => exact (appendNodes_fields _ _ _).1
    | fsmF id => exact (fsmLower_fields id _).1

theorem popCtrl_depth (b : Builder) : (popCtrl b).2.depth = b.depth := by
  unfold popCtrl
  cases hs : b.ctrl_stack with
  | nil => rfl
  | cons f rest =>
    cases f with
    | ifF d => exact (appendNodes_fields _ _ _).2.1
    | switchF sd => exact (appendNodes_fields _ _ _).2.1
    | fsmF id => exact (fsmLower_fields id _).2.1

theorem popCtrl_err_statements (b : Builder) (h : (popCtrl b).1.isSome) :
    (popCtrl b).2.statements = b.statements := by
  unfold popCtrl at *
  cases hs : b.ctrl_stack with
  | nil => rfl
  | cons f rest =>
    cases f with
    | ifF d => rw [hs] at h; simp at h
    | switchF sd => rw [hs] at h; simp at h
    | fsmF id => exact (fsmLower_fields id _).2.2 (by rw [hs] at h; exact h)

theorem flushGo_eq_popN (fuel : Nat) (b : Builder)
    (hf : b.ctrl_stack.length - b.depth ≤ fuel) :
    flushGo fuel b = popN (b.ctrl_stack.length - b.depth) b := by
  induction fuel generalizing b with
  | zero =>
    have h0 : b.ctrl_stack.length - b.depth = 0 := Nat.le_zero.mp hf
    rw [h0]
    rfl
  | succ n ih =>
    by_cases hgt : b.ctrl_stack.length > b.depth
    · obtain ⟨k, hk⟩ : ∃ k, b.ctrl_stack.length - b.depth = k + 1 :=
        ⟨b.ctrl_stack.length - b.depth - 1,
         (Nat.succ_pred_eq_of_pos (Nat.sub_pos_of_lt hgt)).symm⟩
      rw [hk]
      unfold flushGo popN
      rw [if_pos hgt]
      cases hp : popCtrl b with
      | mk e b1 =>
        cases e with
        | none =>
          have hst : b1.ctrl_stack = b.ctrl_stack.tail := by
            have := popCtrl_stack b
            rw [hp] at this
            exact this
          have hdp : b1.depth = b.depth := by
            have := popCtrl_depth b
            rw [hp] at this
            exact this
          have hlen : b1.ctrl_stack.length - b1.depth = k := by
            rw [hst, hdp, List.length_tail]
            omega
          show flushGo n b1 = popN k b1
          rw [ih b1 (by omega), hlen]
        | some err => rfl
    · rw [Nat.sub_eq_zero_of_le (Nat.not_lt.mp hgt)]
      unfold flushGo
      rw [if_neg hgt]
      rfl

theorem popN_depth (n : Nat) (b : Builder) : (popN n b).2.depth = b.depth := by
  induction n generalizing b with
  | zero => rfl
  | succ k ih =>
    unfold popN
    cases hp : popCtrl b with
    | mk e b1 =>
      have hdp : b1.depth = b.depth := by
        have := popCtrl_depth b
        rw [hp] at this
        exact this
      cases e with
      | none => rw [ih b1, hdp]
      | some err => exact hdp

theorem popN_stack (n : Nat) (b : Builder) (h : (popN n b).1 = none) :
    (popN n b).2.ctrl_stack = b.ctrl_stack.drop n := by
  induction n generalizing b with
  | zero => rfl
  | succ k ih =>
    cases hp : popCtrl b with
    | mk e b1 =>
      have hst : b1.ctrl_stack = b.ctrl_stack.tail := by
        have hh := popCtrl_stack b
        rw [hp] at hh
        exact hh
      cases e with
      | none =>
        simp only [popN, hp] at h ⊢
        rw [ih b1 h, hst, ← List.drop_one, List.drop_drop, Nat.add_comm]
      | some err => simp [popN, hp] at h

theorem flushCtrl_eq_popN (b : Builder) :
    flushCtrl b = popN (b.ctrl_stack.length - b.depth) b :=
  flushGo_eq_popN _ b (Nat.sub_le _ _)

theorem flushCtrl_depth (b : Builder) : (flushCtrl b).2.depth = b.depth := by
  rw [flushCtrl_eq_popN]
  exact popN_depth _ _

theorem flushCtrl_none_stack (b : Builder) (h : (flushCtrl b).1 = none) :
    (flushCtrl b).2.ctrl_stack = b.ctrl_stack.drop (b.ctrl_stack.length - b.depth) := by
  rw [flushCtrl_eq_popN] at h ⊢
  exact popN_stack _ _ h

theorem flushCtrl_noop (b : Builder) (h : b.ctrl_stack.length ≤ b.depth) :
    flushCtrl b = (none, b) := by
  unfold flushCtrl
  cases hl : b.ctrl_stack.length with
  | zero => rfl
  | succ n =>
    unfold flushGo
    rw [if_neg (by omega)]

theorem addStmtsGo_fields (ss : List Stmt) (dom : String) (b : Builder) :
    (addStmtsGo ss dom b).2.ctrl_stack = b.ctrl_stack ∧
    (addStmtsGo ss dom b).2.depth = b.depth ∧
    (addStmtsGo ss dom b).2.fsmDatas = b.fsmDatas ∧
    (addStmtsGo ss dom b).2.ctrl_context = b.ctrl_context ∧
    (addStmtsGo ss dom b).2.warnings = b.warnings := by
  induction ss generalizing b with
  | nil => exact ⟨rfl, rfl, rfl, rfl, rfl⟩
  | cons s rest ih =>
    cases s with
    | assign l r =>
      cases hd : alLookup b.driving l with
      | none =>
        simp only [addStmtsGo, hd]
        exact ih _
      | some d0 =>
        by_cases he : d0 = dom
        · simp only [addStmtsGo, hd, if_pos he]
          exact ih _
        · simp only [addStmtsGo, hd, if_neg he]
          exact ⟨by trivial, by trivial, by trivial, by trivial, by trivial⟩
    | propCheck k t =>
      simp only [addStmtsGo]
      exact ih _
    | fsmNext i t =>
      simp only [addStmtsGo]
      exact ih _
    | switch t cs =>
      simp only [addStmtsGo]
      exact ih _

/-! ## C9 — auto-closing of deeper frames -/

/-- Claim C9: the flush that runs at the head of every statement addition
and every construct opening is exactly an iteration of `_pop_ctrl`
(frame finalization) until the stack is no deeper than the current
nesting depth. On success precisely the frames deeper than the depth are
gone; opening a construct (`_set_ctrl`) pushes the new frame on the
flushed stack — so a sibling `If` or `Case` opened at the depth of a
previous sibling finalizes that sibling's frame without an explicit close
call — and `_add_statement` flushes in the same way before appending. -/
theorem flush_auto_closes_deeper_frames (b : Builder) :
    flushCtrl b = popN (b.ctrl_stack.length - b.depth) b ∧
    ((flushCtrl b).1 = none →
      (flushCtrl b).2.ctrl_stack = b.ctrl_stack.drop (b.ctrl_stack.length - b.depth)) ∧
    (∀ f, (setCtrl b f).1 = none →
      (setCtrl b f).2.ctrl_stack
        = f :: b.ctrl_stack.drop (b.ctrl_stack.length - b.depth)) ∧
    (∀ ss dom dp, (addStatement ss dom dp b).2.ctrl_stack = (flushCtrl b).2.ctrl_stack) := by
  refine ⟨flushCtrl_eq_popN b, flushCtrl_none_stack b, ?_, ?_⟩
  · intro f hok
    unfold setCtrl at *
    cases hf : flushCtrl b with
    | mk e b1 =>
      cases e with
      | none =>
        have hst : b1.ctrl_stack = b.ctrl_stack.drop (b.ctrl_stack.length - b.depth) := by
          have := flushCtrl_none_stack b (by rw [hf])
          rw [hf] at this
          exact this
        simp only [hst]
      | some err =>
        rw [hf] at hok
        simp at hok
  · intro ss dom dp
    unfold addStatement
    cases hf : flushCtrl b with
    | mk e b1 =>
      cases e with
      | none => exact (addStmtsGo_fields ss dom b1).1
      | some err => rfl

/-- Witness for C9: opening a sibling construct on `c9Builder` pops and
lowers the pending sibling `If` frame, leaving only the new frame. -/
theorem flush_auto_closes_deeper_frames_witness :
    (setCtrl c9Builder c9NewFrame).2.ctrl_stack = [c9NewFrame] ∧
    flushCtrl c9Builder = popN 1 c9Builder := by
  constructor
  · exact (flush_auto_closes_deeper_frames c9Builder).2.2.1 c9NewFrame rfl
  · exact (flush_auto_closes_deeper_frames c9Builder).1

theorem setCtrl_noop (b : Builder) (f : Frame) (h : b.ctrl_stack.length ≤ b.depth) :
    setCtrl b f = (none, {b with ctrl_stack := f :: b.ctrl_stack}) := by
  unfold setCtrl
  rw [flushCtrl_noop b h]

/-! ## C3 — driver conflicts -/

/-- Claim C3: on any builder state in which no flushing is pending (the
normal state at every point inside or outside nested frame bodies), adding
an assignment to a signal already driven from a different domain raises a
driver-conflict error that names both the new and the recorded domain and
leaves the builder unchanged; adding under the recorded domain appends the
statement without error; and a first addition records the current domain in
the builder-global driver registry. -/
theorem driver_conflict_cross_domain (b : Builder) (hlen : b.ctrl_stack.length ≤ b.depth)
    (s : Nat) (e : Expr) (dNew : String) (dp : Nat) :
    (∀ dOld, alLookup b.driving s = some dOld → dOld ≠ dNew →
      addStatement [.assign s e] dNew dp b = (some (.driverConflict s dNew dOld), b)) ∧
    (alLookup b.driving s = some dNew →
      addStatement [.assign s e] dNew dp b
        = (none, {b with statements := stmtAppend b.statements dNew (.assign s e)})) ∧
    (alLookup b.driving s = none →
      addStatement [.assign s e] dNew dp b
        = (none, {b with driving := alSet b.driving s dNew,
                         statements := stmtAppend b.statements dNew (.assign s e)})) := by
  have hfl : flushCtrl b = (none, b) := flushCtrl_noop b hlen
  refine ⟨?_, ?_, ?_⟩
  · intro dOld hl hne
    unfold addStatement
    rw [hfl]
    simp only [addStmtsGo, hl, if_neg hne]
  · intro hl
    unfold addStatement
    rw [hfl]
    simp [addStmtsGo, hl]
  · intro hl
    unfold addStatement
    rw [hfl]
    simp only [addStmtsGo, hl]

/-- Witness for C3: driving signal 7 from `"comb"` succeeds, then driving
it from `"sync"` raises a conflict naming both domains. -/
theorem driver_conflict_cross_domain_witness :
    c3Step1.1 = none ∧
    addStatement [.assign 7 (.natConst 0 1)] "sync" 0 c3Step1.2
      = (some (.driverConflict 7 "sync" "comb"), c3Step1.2) := by
  constructor
  · rfl
  · exact (driver_conflict_cross_domain c3Step1.2 (by decide) 7 (.natConst 0 1)
      "sync" 0).1 "comb" rfl (by decide)

/-! ## C7 — exception safety of the scoped constructs -/

theorem depth_of_run {body : Builder → Option BuildErr × Builder}
    (hd : ∀ st, ((body st).2).depth = st.depth) {st : Builder}
    {r : Option BuildErr × Builder} (heq : body st = r) : r.2.depth = st.depth :=
  heq ▸ hd st

theorem stmts_of_run {body : Builder → Option BuildErr × Builder}
    (hs : ∀ st, ((body st).2).statements = st.statements) {st : Builder}
    {r : Option BuildErr × Builder} (heq : body st = r) : r.2.statements = st.statements :=
  heq ▸ hs st

theorem runIf_error_restores (cond : Expr) (body : Builder → Option BuildErr × Builder)
    (b : Builder) (hd : ∀ st, ((body st).2).depth = st.depth)
    (hlen : b.ctrl_stack.length ≤ b.depth) :
    ∀ e b2, runIf cond body b = (some e, b2) →
      b2.statements = b.statements ∧ b2.depth = b.depth := by
  intro e b2 h
  unfold runIf at h
  simp only [setCtrl_noop b _ hlen] at h
  split at h
  · injection h with h1 h2
    subst h2
    exact ⟨rfl, rfl⟩
  · split at h
    · rename_i e1 b3 heq
      injection h with h1 h2
      subst h2
      have hdep2 : b3.depth = b.depth + 1 := depth_of_run hd heq
      refine ⟨rfl, ?_⟩
      show b3.depth - 1 = b.depth
      omega
    · rename_i b3 heq
      split at h
      · rename_i e2 b4 heq2
        injection h with h1 h2
        subst h2
        have hdep2 : b3.depth = b.depth + 1 := depth_of_run hd heq
        have hfd := flushCtrl_depth b3
        rw [heq2] at hfd
        have hfd2 : b4.depth = b3.depth := hfd
        refine ⟨rfl, ?_⟩
        show b4.depth - 1 = b.depth
        omega
      · simp at h

theorem popCtrl_err_restores {b b2 : Builder} {e : BuildErr}
    (h : popCtrl b = (some e, b2)) :
    b2.statements = b.statements ∧ b2.depth = b.depth := by
  have h1 := popCtrl_err_statements b (by rw [h]; rfl)
  have h2 := popCtrl_depth b
  rw [h] at h1 h2
  exact ⟨h1, h2⟩

theorem ifAppendTop_fields (b : Builder) (cond : Option Expr) (stmts : StmtMap) :
    (ifAppendTop b cond stmts).statements = b.statements ∧
    (ifAppendTop b cond stmts).depth = b.depth := by
  unfold ifAppendTop
  split
  · exact ⟨rfl, rfl⟩
  · exact ⟨rfl, rfl⟩

theorem runElif_error_restores (cond : Expr) (body : Builder → Option BuildErr × Builder)
    (b : Builder) (hd : ∀ st, ((body st).2).depth = st.depth) :
    ∀ e b2, runElif cond body b = (some e, b2) →
      b2.statements = b.statements ∧ b2.depth = b.depth := by
  intro e b2 h
  unfold runElif at h
  dsimp only at h
  split at h
  · injection h with h1 h2
    subst h2
    exact ⟨rfl, rfl⟩
  · split at h
    · split at h
      · injection h with h1 h2
        subst h2
        exact ⟨rfl, rfl⟩
      · split at h
        · rename_i e1 b3 heq
          injection h with h1 h2
          subst h2
          have hdep2 : b3.depth = b.depth + 1 := depth_of_run hd heq
          exact ⟨rfl, by show b3.depth - 1 = b.depth; omega⟩
        · rename_i b3 heq
          split at h
          · rename_i e2 b4 heq2
            injection h with h1 h2
            subst h2
            have hdep2 : b3.depth = b.depth + 1 := depth_of_run hd heq
            have hfd := flushCtrl_depth b3
            rw [heq2] at hfd
            have hfd2 : b4.depth = b3.depth := hfd
            exact ⟨rfl, by show b4.depth - 1 = b.depth; omega⟩
          · simp at h
    · injection h with h1 h2
      subst h2
      exact ⟨rfl, rfl⟩

theorem runElse_error_restores (body : Builder → Option BuildErr × Builder)
    (b : Builder) (hd : ∀ st, ((body st).2).depth = st.depth) :
    ∀ e b2, runElse body b = (some e, b2) →
      b2.statements = b.statements ∧ b2.depth = b.depth := by
  intro e b2 h
  unfold runElse at h
  dsimp only at h
  split at h
  · injection h with h1 h2
    subst h2
    exact ⟨rfl, rfl⟩
  · split at h
    · split at h
      · injection h with h1 h2
        subst h2
        exact ⟨rfl, rfl⟩
      · split at h
        · rename_i e1 b3 heq
          injection h with h1 h2
          subst h2
          have hdep2 : b3.depth = b.depth + 1 := depth_of_run hd heq
          exact ⟨rfl, by show b3.depth - 1 = b.depth; omega⟩
        · rename_i b3 heq
          split at h
          · rename_i e2 b4 heq2
            injection h with h1 h2
            subst h2
            have hdep2 : b3.depth = b.depth + 1 := depth_of_run hd heq
            have hfd := flushCtrl_depth b3
            rw [heq2] at hfd
            have hfd2 : b4.depth = b3.depth := hfd
            exact ⟨rfl, by show b4.depth - 1 = b.depth; omega⟩
          · rename_i b4 heq2
            obtain ⟨hs2, hd2⟩ := popCtrl_err_restores h
            have hdep2 : b3.depth = b.depth + 1 := depth_of_run hd heq
            have hfd := flushCtrl_depth b3
            rw [heq2] at hfd
            have hfd2 : b4.depth = b3.depth := hfd
            have hda := (ifAppendTop_fields b4 none b4.statements).2
            constructor
            · exact hs2
            · have hx : b2.depth = (ifAppendTop b4 none b4.statements).depth - 1 := hd2
              rw [hda] at hx
              omega
    · injection h with h1 h2
      subst h2
      exact ⟨rfl, rfl⟩

theorem runSwitch_error_restores (test : Expr) (body : Builder → Option BuildErr × Builder)
    (b : Builder) (hd : ∀ st, ((body st).2).depth = st.depth)
    (hs : ∀ st, ((body st).2).statements = st.statements)
    (hlen : b.ctrl_stack.length ≤ b.depth) :
    ∀ e b2, runSwitch test body b = (some e, b2) →
      b2.statements = b.statements ∧ b2.depth = b.depth := by
  intro e b2 h
  unfold runSwitch at h
  simp only [setCtrl_noop b _ hlen] at h
  split at h
  · injection h with h1 h2
    subst h2
    exact ⟨rfl, rfl⟩
  · split at h
    · rename_i e1 b3 heq
      injection h with h1 h2
      subst h2
      have hss : b3.statements = b.statements := stmts_of_run hs heq
      have hdep2 : b3.depth = b.depth + 1 := depth_of_run hd heq
      constructor
      · exact hss
      · show b3.depth - 1 = b.depth
        omega
    · rename_i b3 heq
      obtain ⟨hs2, hd2⟩ := popCtrl_err_restores h
      have hss : b3.statements = b.statements := stmts_of_run hs heq
      have hdep2 : b3.depth = b.depth + 1 := depth_of_run hd heq
      constructor
      · exact hs2.trans hss
      · have hx : b2.depth = b3.depth - 1 := hd2
        omega

theorem warnIfDefault_fields (b : Builder) (sd : SwitchData) :
    (warnIfDefault b sd).statements = b.statements ∧
    (warnIfDefault b sd).depth = b.depth ∧
    (warnIfDefault b sd).ctrl_stack = b.ctrl_stack := by
  unfold warnIfDefault
  split
  · exact ⟨rfl, rfl, rfl⟩
  · exact ⟨rfl, rfl, rfl⟩

theorem fsmAddName_fields (b : Builder) (id : Nat) (fd : FsmData) (name : String) :
    (fsmAddName b id fd name).statements = b.statements ∧
    (fsmAddName b id fd name).depth = b.depth ∧
    (fsmAddName b id fd name).ctrl_stack = b.ctrl_stack ∧
    (fsmAddName b id fd name).ctrl_context = b.ctrl_context ∧
    (fsmAddName b id fd name).driving = b.driving := by
  unfold fsmAddName
  split
  · exact ⟨rfl, rfl, rfl, rfl, rfl⟩
  · exact ⟨rfl, rfl, rfl, rfl, rfl⟩

theorem runCase_error_restores (patterns : List Pattern)
    (body : Builder → Option BuildErr × Builder)
    (b : Builder) (hd : ∀ st, ((body st).2).depth = st.depth) :
    ∀ e b2, runCase patterns body b = (some e, b2) →
      b2.statements = b.statements ∧ b2.depth = b.depth := by
  intro e b2 h
  unfold runCase at h
  dsimp only at h
  split at h
  · injection h with h1 h2
    subst h2
    exact ⟨rfl, rfl⟩
  · split at h
    · split at h
      · injection h with h1 h2
        subst h2
        exact ⟨(warnIfDefault_fields b _).1, (warnIfDefault_fields b _).2.1⟩
      · split at h
        · rename_i e1 b3 heq
          injection h with h1 h2
          subst h2
          have hdep2 := depth_of_run hd heq
          exact ⟨(warnIfDefault_fields b _).1,
                 hdep2.trans (warnIfDefault_fields b _).2.1⟩
        · rename_i b3 heq
          split at h
          · rename_i e2 b4 heq2
            injection h with h1 h2
            subst h2
            have hdep2 := depth_of_run hd heq
            have hfd := flushCtrl_depth b3
            rw [heq2] at hfd
            exact ⟨(warnIfDefault_fields b _).1,
                   hfd.trans (hdep2.trans (warnIfDefault_fields b _).2.1)⟩
          · simp at h
    · injection h with h1 h2
      subst h2
      exact ⟨rfl, rfl⟩

theorem runDefault_error_restores (body : Builder → Option BuildErr × Builder)
    (b : Builder) (hd : ∀ st, ((body st).2).depth = st.depth) :
    ∀ e b2, runDefault body b = (some e, b2) →
      b2.statements = b.statements ∧ b2.depth = b.depth := by
  intro e b2 h
  unfold runDefault at h
  dsimp only at h
  split at h
  · injection h with h1 h2
    subst h2
    exact ⟨rfl, rfl⟩
  · split at h
    · split at h
      · rename_i e1 b3 heq
        injection h with h1 h2
        subst h2
        have hdep2 := depth_of_run hd heq
        exact ⟨(warnIfDefault_fields b _).1,
               hdep2.trans (warnIfDefault_fields b _).2.1⟩
      · rename_i b3 heq
        split at h
        · rename_i e2 b4 heq2
          injection h with h1 h2
          subst h2
          have hdep2 := depth_of_run hd heq
          have hfd := flushCtrl_depth b3
          rw [heq2] at hfd
          exact ⟨(warnIfDefault_fields b _).1,
                 hfd.trans (hdep2.trans (warnIfDefault_fields b _).2.1)⟩
        · simp at h
    · injection h with h1 h2
      subst h2
      exact ⟨rfl, rfl⟩

theorem runState_error_restores (stName : String)
    (body : Builder → Option BuildErr × Builder)
    (b : Builder) (hd : ∀ st, ((body st).2).depth = st.depth) :
    ∀ e b2, runState stName body b = (some e, b2) →
      b2.statements = b.statements ∧ b2.depth = b.depth := by
  intro e b2 h
  unfold runState at h
  dsimp only at h
  split at h
  · injection h with h1 h2
    subst h2
    exact ⟨rfl, rfl⟩
  · split at h
    · split at h
      · injection h with h1 h2
        subst h2
        exact ⟨rfl, rfl⟩
      · rename_i fd hreg
        split at h
        · injection h with h1 h2
          subst h2
          exact ⟨rfl, rfl⟩
        · split at h
          · rename_i e1 b3 heq
            injection h with h1 h2
            subst h2
            have hdep2 := depth_of_run hd heq
            exact ⟨(fsmAddName_fields b _ fd stName).1,
                   hdep2.trans (fsmAddName_fields b _ fd stName).2.1⟩
          · rename_i b3 heq
            split at h
            · rename_i e2 b4 heq2
              injection h with h1 h2
              subst h2
              have hdep2 := depth_of_run hd heq
              have hfd := flushCtrl_depth b3
              rw [heq2] at hfd
              exact ⟨(fsmAddName_fields b _ fd stName).1,
                     hfd.trans (hdep2.trans (fsmAddName_fields b _ fd stName).2.1)⟩
            · simp at h
    · injection h with h1 h2
      subst h2
      exact ⟨rfl, rfl⟩

/-- Claim C7: for each scoped construct (`If`, `Elif`, `Else`, `Switch`,
`Case`, `Default`, `State`), whenever an error propagates out of the
construct, the builder's statement accumulator and nesting depth have been
restored to their values from before the construct was entered — the
parent scope's accumulated statements are unchanged. The body is assumed
to preserve the depth counter (every builder operation does, on success
and on error); for `Switch`, whose body accumulator is not swapped, the
body is additionally assumed to leave the accumulator as it found it
(which every `Case`/`Default` construct does); for the constructs that
open with a flush (`If`, `Switch`), the entry state is assumed to have no
pending deeper frames, so that "before the construct" is well defined. -/
theorem ctrl_body_error_restores_outer_state
    (body : Builder → Option BuildErr × Builder) (b : Builder)
    (cond test : Expr) (patterns : List Pattern) (stName : String)
    (hd : ∀ st, ((body st).2).depth = st.depth) :
    (b.ctrl_stack.length ≤ b.depth → ∀ e b2, runIf cond body b = (some e, b2) →
      b2.statements = b.statements ∧ b2.depth = b.depth) ∧
    (∀ e b2, runElif cond body b = (some e, b2) →
      b2.statements = b.statements ∧ b2.depth = b.depth) ∧
    (∀ e b2, runElse body b = (some e, b2) →
      b2.statements = b.statements ∧ b2.depth = b.depth) ∧
    ((∀ st, ((body st).2).statements = st.statements) →
      b.ctrl_stack.length ≤ b.depth →
      ∀ e b2, runSwitch test body b = (some e, b2) →
        b2.statements = b.statements ∧ b2.depth = b.depth) ∧
    (∀ e b2, runCase patterns body b = (some e, b2) →
      b2.statements = b.statements ∧ b2.depth = b.depth) ∧
    (∀ e b2, runDefault body b = (some e, b2) →
      b2.statements = b.statements ∧ b2.depth = b.depth) ∧
    (∀ e b2, runState stName body b = (some e, b2) →
      b2.statements = b.statements ∧ b2.depth = b.depth) :=
  ⟨fun hlen => runIf_error_restores cond body b hd hlen,
   runElif_error_restores cond body b hd,
   runElse_error_restores body b hd,
   fun hs hlen => runSwitch_error_restores test body b hd hs hlen,
   runCase_error_restores patterns body b hd,
   runDefault_error_restores body b hd,
   runState_error_restores stName body b hd⟩

/-- Witness for C7 at a concrete input: a failing `If` body on the empty
builder leaves the accumulator and depth restored. -/
theorem ctrl_body_error_restores_outer_state_witness :
    (runIf (.var 0 1) c7Body emptyBuilder).2.statements = emptyBuilder.statements ∧
    (runIf (.var 0 1) c7Body emptyBuilder).2.depth = emptyBuilder.depth :=
  (ctrl_body_error_restores_outer_state c7Body emptyBuilder (.var 0 1) (.var 0 1) []
      "S" (fun _ => rfl)).1 (by decide) .keyError
    ((runIf (.var 0 1) c7Body emptyBuilder).2) rfl

/-! ## C6 — a referenced-but-undeclared state errors at FSM close -/

/-- Claim C6: a state name referenced only through a transition (the
`m.next` setter) is accepted without error at the reference point — the
transition is recorded as a late-bound statement under the FSM's driving
domain and the name merely enters the encoding — while the fatal naming
error for a referenced-but-never-declared state is raised when the FSM
frame closes, at normal exit of the FSM construct (the `ongoing` query, a
plain function in the model, likewise cannot raise). -/
theorem fsm_missing_state_error_at_close (nm : String) :
    (∀ (b : Builder) (id : Nat) (rest : List Frame) (fd : FsmData),
      b.ctrl_context = none → b.ctrl_stack = .fsmF id :: rest →
      b.fsmDatas.get? id = some fd → b.ctrl_stack.length ≤ b.depth →
      alLookup fd.encoding nm = none →
      nextState nm b =
        (none,
         {b with fsmDatas := b.fsmDatas.set id
                   {fd with encoding := fd.encoding ++ [(nm, fd.encoding.length)],
                            ongoing := fd.ongoing ++ [(nm, b.nextSig)]},
                 nextSig := b.nextSig + 1,
                 statements := stmtAppend b.statements fd.domain (.fsmNext id nm)})) ∧
    (∀ (init : Option String) (domain fname : String)
       (body : Builder → Option BuildErr × Builder) (b : Builder),
      b.ctrl_context = none → domain ≠ "comb" → b.ctrl_stack.length ≤ b.depth →
      (body (fsmEnterState b init domain fname)).1 = none →
      fsmMissingState (body (fsmEnterState b init domain fname)).2 b.fsmDatas.length
        = some nm →
      (runFSM init domain fname body b).1 = some (.stateUndefined nm)) := by
  constructor
  · intro b id rest fd hctx hstack hfd hlen hnew
    have hcond : ¬ (b.ctrl_context = some "FSM") := by rw [hctx]; simp
    have hb0 : fsmAddName b id fd nm
        = {b with fsmDatas := b.fsmDatas.set id
                    {fd with encoding := fd.encoding ++ [(nm, fd.encoding.length)],
                             ongoing := fd.ongoing ++ [(nm, b.nextSig)]},
                  nextSig := b.nextSig + 1} := by
      unfold fsmAddName
      rw [hnew]
      rfl
    unfold nextState
    rw [if_neg hcond, hstack]
    dsimp only [findFsm]
    rw [hfd]
    dsimp only
    rw [hb0]
    unfold addStatement
    rw [flushCtrl_noop]
    · dsimp only [addStmtsGo]
      rw [hstack]
    · exact hlen
  · intro init domain fname body b hctx hdom hlen hb hmiss
    unfold runFSM checkContext
    rw [if_pos hctx, if_neg hdom, flushCtrl_noop b hlen]
    dsimp only
    cases hbr : body (fsmEnterState b init domain fname) with
    | mk e4 b4 =>
      rw [hbr] at hb hmiss
      cases e4 with
      | some err => simp at hb
      | none =>
        dsimp only
        rw [hmiss]

/-- Witness for C6: the transition to `"X"` raises nothing at reference
time, and the whole construct raises the naming error at close. -/
theorem fsm_missing_state_error_at_close_witness :
    c6Scenario.1 = some (.stateUndefined "X") ∧
    (nextState "X" c6RefBuilder).1 = none := by
  constructor
  · exact (fsm_missing_state_error_at_close "X").2 none "sync" "fsm"
      (fun st => runState "A" (fun st2 => nextState "X" st2) st) emptyBuilder
      rfl (by decide) (by decide) rfl rfl
  · rw [(fsm_missing_state_error_at_close "X").1 c6RefBuilder 0 []
      (newFsmData "fsm" none "sync") rfl rfl rfl (by decide) rfl]

/-! ## C4 and C5 — Case registration behaviour -/

theorem runCase_register_path (b : Builder) (sd : SwitchData) (rest : List Frame)
    (patterns np : List Pattern) (ws : List Warn) (m : StmtMap)
    (hctx : b.ctrl_context = some "Switch")
    (hstack : b.ctrl_stack = .switchF sd :: rest)
    (hlen : b.ctrl_stack.length ≤ b.depth)
    (hval : validateGo (exprWidth sd.test) patterns [] [] = (none, np, ws)) :
    (runCase patterns (fun st => (none, {st with statements := m})) b).1 = none ∧
    (runCase patterns (fun st => (none, {st with statements := m})) b).2.statements
      = b.statements ∧
    (runCase patterns (fun st => (none, {st with statements := m})) b).2.ctrl_stack
      = (if np ≠ [] ∧ ¬ (hasKey sd.cases np = true)
         then Frame.switchF {sd with cases := sd.cases ++ [(np, m)]} :: rest
         else b.ctrl_stack) ∧
    (runCase patterns (fun st => (none, {st with statements := m})) b).2.warnings
      = (warnIfDefault b sd).warnings ++ ws := by
  have hws := warnIfDefault_fields b sd
  unfold runCase checkContext
  rw [if_pos hctx, hstack]
  dsimp only
  rw [hval]
  dsimp only
  rw [flushCtrl_noop]
  · dsimp only
    unfold caseRegister
    dsimp only
    rw [hws.2.2, hstack]
    dsimp only
    refine ⟨rfl, hws.1, ?_, ?_⟩
    · by_cases hg : np ≠ [] ∧ ¬ (hasKey sd.cases np = true)
      · rw [if_pos hg, if_pos hg]
      · rw [if_neg hg, if_neg hg]
    · by_cases hg : np ≠ [] ∧ ¬ (hasKey sd.cases np = true)
      · rw [if_pos hg]
      · rw [if_neg hg]
  · show (warnIfDefault b sd).ctrl_stack.length ≤ (warnIfDefault b sd).depth
    rw [hws.2.2, hws.2.1]
    exact hlen

theorem validateGo_none_spec (tw : Nat) :
    ∀ (ps acc0 : List Pattern) (ws0 : List Warn) (np : List Pattern) (ws1 : List Warn),
      validateGo tw ps acc0 ws0 = (none, np, ws1) →
      np = acc0 ++ ps.filter (fun p => !(oversizedPat tw p)) ∧
      ws1 = ws0 ++ ps.filterMap (oversizedWarn tw) := by
  intro ps
  induction ps with
  | nil =>
    intro acc0 ws0 np ws1 h
    injection h with h1 h2
    injection h2 with h2 h3
    subst h2 h3
    simp
  | cons p rest ih =>
    intro acc0 ws0 np ws1 h
    cases p with
    | str s =>
      by_cases h1 : s.data.any (fun c => !(isPatChar c))
      · rw [validateGo, if_pos h1] at h
        simp at h
      · by_cases h2 : (s.data.filter (fun c => !(isWs c))).length ≠ tw
        · rw [validateGo, if_neg h1, if_pos h2] at h
          simp at h
        · rw [validateGo, if_neg h1, if_neg h2] at h
          obtain ⟨hnp, hws⟩ := ih _ _ _ _ h
          constructor
          · rw [hnp]
            simp [oversizedPat]
          · rw [hws]
            simp [oversizedWarn]
    | val v =>
      by_cases hov : (if v = 0 then 0 else bitsFor v) > tw
      · rw [validateGo] at h
        rw [if_pos hov] at h
        obtain ⟨hnp, hws⟩ := ih _ _ _ _ h
        constructor
        · rw [hnp]
          have : oversizedPat tw (.val v) = true := by simp [oversizedPat, hov]
          simp [this]
        · rw [hws]
          have : oversizedWarn tw (.val v)
              = some (.oversizedPattern v (if v = 0 then 0 else bitsFor v) tw) := by
            simp [oversizedWarn, hov]
          simp [this]
      · rw [validateGo] at h
        rw [if_neg hov] at h
        obtain ⟨hnp, hws⟩ := ih _ _ _ _ h
        constructor
        · rw [hnp]
          have : oversizedPat tw (.val v) = false := by simp [oversizedPat, hov]
          simp [this]
        · rw [hws]
          have : oversizedWarn tw (.val v) = none := by simp [oversizedWarn, hov]
          simp [this]

/-- Claim C5: a constant case pattern whose normalized width exceeds the
discriminant's width is dropped from the validated pattern tuple and
contributes exactly one advisory diagnostic while validation continues
without a fatal error (first conjunct: the surviving patterns are exactly
the non-oversized ones and the emitted advisories are exactly one per
oversized constant); and a `Case` in which every pattern was dropped this
way registers nothing in the switch frame — no case is contributed to the
eventual branch node — and raises no error (second conjunct). -/
theorem case_oversized_pattern_dropped_with_warning (tw : Nat) (b : Builder)
    (sd : SwitchData) (rest : List Frame) (patterns : List Pattern) (m : StmtMap) :
    (∀ (ps acc0 : List Pattern) (ws0 : List Warn) (np : List Pattern) (ws1 : List Warn),
      validateGo tw ps acc0 ws0 = (none, np, ws1) →
      np = acc0 ++ ps.filter (fun p => !(oversizedPat tw p)) ∧
      ws1 = ws0 ++ ps.filterMap (oversizedWarn tw)) ∧
    (∀ ws1, b.ctrl_context = some "Switch" → b.ctrl_stack = .switchF sd :: rest →
      b.ctrl_stack.length ≤ b.depth →
      validateGo (exprWidth sd.test) patterns [] [] = (none, [], ws1) →
      (runCase patterns (fun st => (none, {st with statements := m})) b).1 = none ∧
      (runCase patterns (fun st => (none, {st with statements := m})) b).2.ctrl_stack
        = b.ctrl_stack ∧
      (runCase patterns (fun st => (none, {st with statements := m})) b).2.warnings
        = (warnIfDefault b sd).warnings ++ ws1) := by
  constructor
  · exact validateGo_none_spec tw
  · intro ws1 hctx hstack hlen hval
    obtain ⟨h1, h2, h3, h4⟩ :=
      runCase_register_path b sd rest patterns [] ws1 m hctx hstack hlen hval
    refine ⟨h1, ?_, h4⟩
    rw [h3, if_neg]
    simp

/-- Witness for C5: the constant pattern `4` needs three bits against the
two-bit discriminant; the `Case` registers nothing, raises nothing, and
emits exactly one advisory. -/
theorem case_oversized_pattern_dropped_with_warning_witness :
    (runCase [.val 4] (fun st => (none, {st with statements := []})) c5Builder).1
      = none ∧
    (runCase [.val 4] (fun st => (none, {st with statements := []})) c5Builder).2.ctrl_stack
      = c5Builder.ctrl_stack ∧
    (runCase [.val 4] (fun st => (none, {st with statements := []})) c5Builder).2.warnings
      = [.oversizedPattern 4 3 2] := by
  have h := (case_oversized_pattern_dropped_with_warning 2 c5Builder c5Switch []
      [.val 4] []).2 [.oversizedPattern 4 3 2] rfl rfl (by decide) rfl
  exact ⟨h.1, h.2.1, h.2.2⟩

/-- Claim C4: registering a `Case` whose validated pattern tuple is
already a key of the switch frame's case map is a no-op: no error is
raised, the frame — and with it the first registration's body — is
unchanged, and the later registration's statements are silently dropped
with the outer accumulator restored. -/
theorem case_duplicate_pattern_first_wins (b : Builder) (sd : SwitchData)
    (rest : List Frame) (patterns np : List Pattern) (ws : List Warn) (m : StmtMap)
    (hctx : b.ctrl_context = some "Switch")
    (hstack : b.ctrl_stack = .switchF sd :: rest)
    (hlen : b.ctrl_stack.length ≤ b.depth)
    (hval : validateGo (exprWidth sd.test) patterns [] [] = (none, np, ws))
    (hdup : hasKey sd.cases np = true) :
    (runCase patterns (fun st => (none, {st with statements := m})) b).1 = none ∧
    (runCase patterns (fun st => (none, {st with statements := m})) b).2.ctrl_stack
      = b.ctrl_stack ∧
    (runCase patterns (fun st => (none, {st with statements := m})) b).2.statements
      = b.statements := by
  obtain ⟨h1, h2, h3, _⟩ :=
    runCase_register_path b sd rest patterns np ws m hctx hstack hlen hval
  refine ⟨h1, ?_, h2⟩
  rw [h3, if_neg]
  simp [hdup]

/-- Witness for C4: re-registering `("01",)` with a different body leaves
the frame — first body included — unchanged, with no error. -/
theorem case_duplicate_pattern_first_wins_witness :
    (runCase [.str "01"]
      (fun st => (none,
        {st with statements := [("comb", .cons (.assign 5 (.natConst 0 1)) .nil)]}))
      c4Builder).1 = none ∧
    (runCase [.str "01"]
      (fun st => (none,
        {st with statements := [("comb", .cons (.assign 5 (.natConst 0 1)) .nil)]}))
      c4Builder).2.ctrl_stack = c4Builder.ctrl_stack := by
  have h := case_duplicate_pattern_first_wins c4Builder c4Switch [] [.str "01"]
      [.str "01"] [] [("comb", .cons (.assign 5 (.natConst 0 1)) .nil)]
      rfl rfl (by decide) rfl rfl
  exact ⟨h.1, h.2.1⟩

/-! ## C2 — If/Elif/Else priority lowering -/

theorem ifMatchChars_length (n i : Nat) (h : i < n) : (ifMatchChars n i).length = n := by
  unfold ifMatchChars dashes
  simp only [List.length_append, List.length_replicate, List.length_cons]
  omega

theorem bitAt_ifMatchChars_self (n i : Nat) (h : i < n) :
    bitAt (ifMatchChars n i) i = '1' := by
  unfold bitAt
  rw [ifMatchChars_length n i h]
  unfold ifMatchChars dashes
  rw [List.getD_eq_getElem?_getD]
  rw [List.getElem?_append_right (by simp; omega)]
  simp only [List.length_replicate]
  have hidx : n - 1 - i - (n - (i + 1)) = 0 := by omega
  rw [hidx]
  simp

theorem bitAt_ifMatchChars_lt (n i j : Nat) (hi : i < n) (hj : j < i) :
    bitAt (ifMatchChars n i) j = '-' := by
  unfold bitAt
  rw [ifMatchChars_length n i hi]
  unfold ifMatchChars dashes
  rw [List.getD_eq_getElem?_getD]
  rw [List.getElem?_append_right (by simp; omega)]
  simp only [List.length_replicate]
  obtain ⟨k, hk⟩ : ∃ k, n - 1 - j - (n - (i + 1)) = k + 1 := ⟨i - j - 1, by omega⟩
  rw [hk, List.getElem?_cons_succ, List.getElem?_replicate]
  have hki : k < i := by omega
  simp [hki]

theorem boolReduced_width (e : Expr) : exprWidth (boolReduced e) = 1 := by
  unfold boolReduced
  split
  · assumption
  · rfl

theorem exprListWidth_boolReduced (ts : List Expr) :
    exprListWidth (ExprList.ofList (ts.map boolReduced)) = ts.length := by
  induction ts with
  | nil => rfl
  | cons t rest ih =>
    show exprWidth (boolReduced t) + exprListWidth (ExprList.ofList (rest.map boolReduced))
      = rest.length + 1
    rw [ih, boolReduced_width]
    omega

theorem ifCasesGo_spec (dom : String) (n : Nat) :
    ∀ (ts : List Expr) (bs : List StmtMap) (i : Nat),
      bs.length = ts.length + 1 →
      (ifCasesGo dom n (ts.map some ++ [none]) bs i).1 = ts.map boolReduced ∧
      (ifCasesGo dom n (ts.map some ++ [none]) bs i).2.length = ts.length + 1 ∧
      (∀ j, j < ts.length →
        (ifCasesGo dom n (ts.map some ++ [none]) bs i).2.get? j
          = some (.ifPat (some (ifMatchStr n (i + j))), stmtGet ((bs.get? j).getD []) dom)) ∧
      (ifCasesGo dom n (ts.map some ++ [none]) bs i).2.get? ts.length
        = some (.ifPat none, stmtGet ((bs.get? ts.length).getD []) dom) := by
  intro ts
  induction ts with
  | nil =>
    intro bs i hlen
    match bs, hlen with
    | [b0], _ =>
      refine ⟨rfl, rfl, ?_, rfl⟩
      intro j hj
      exact absurd hj (by simp)
  | cons t rest ih =>
    intro bs i hlen
    match bs, hlen with
    | b0 :: bs', hlen =>
      have hlen' : bs'.length = rest.length + 1 := by
        simpa using hlen
      obtain ⟨ih1, ih2, ih3, ih4⟩ := ih bs' (i + 1) hlen'
      refine ⟨?_, ?_, ?_, ?_⟩
      · show boolReduced t :: (ifCasesGo dom n (rest.map some ++ [none]) bs' (i + 1)).1
          = boolReduced t :: rest.map boolReduced
        rw [ih1]
      · show (ifCasesGo dom n (rest.map some ++ [none]) bs' (i + 1)).2.length + 1
          = (rest.length + 1) + 1
        rw [ih2]
      · intro j hj
        have hj' : j < rest.length + 1 := by
          simp at hj
          omega
        cases j with
        | zero =>
          show some (CaseKey.ifPat (some (ifMatchStr n i)), stmtGet b0 dom)
            = some (.ifPat (some (ifMatchStr n (i + 0))), stmtGet b0 dom)
          rw [Nat.add_zero]
        | succ k =>
          have hk : k < rest.length := by omega
          show (ifCasesGo dom n (rest.map some ++ [none]) bs' (i + 1)).2.get? k
            = some (.ifPat (some (ifMatchStr n (i + (k + 1)))),
                    stmtGet ((bs'.get? k).getD []) dom)
          rw [ih3 k hk]
          have : i + 1 + k = i + (k + 1) := by omega
          rw [this]
      · show (ifCasesGo dom n (rest.map some ++ [none]) bs' (i + 1)).2.get? rest.length
          = some (.ifPat none, stmtGet ((bs'.get? rest.length).getD []) dom)
        exact ih4

/-- Claim C2: closing an If/Elif/Else frame with `n` tests and an `Else`
body emits, per domain touched by any branch body and only there, exactly
one branch node appended to that domain's statements. Its discriminant is
the concatenation of the `n` tests, each boolean-reduced to one bit, and
has width `n`; the case for branch `i` carries a match string of length
`n` with `'1'` at bit position `i` and don't-care at every bit position
below `i`; the default case (the `None` key) carries the Else body's
statements for that domain. -/
theorem if_else_chain_priority_lowering (d : IfData) (rest : List Frame)
    (b : Builder) (n : Nat)
    (hstack : b.ctrl_stack = .ifF d :: rest)
    (hn : d.tests.length = n)
    (hb : d.bodies.length = n + 1) :
    (popCtrl b).1 = none ∧
    (∀ dom, dom ∉ domainsOf d.bodies →
      stmtGet (popCtrl b).2.statements dom = stmtGet b.statements dom) ∧
    (∀ dom, dom ∈ domainsOf d.bodies →
      ∃ disc cs,
        stmtGet (popCtrl b).2.statements dom
          = (stmtGet b.statements dom).push (.switch disc cs) ∧
        disc = .cat (ExprList.ofList (d.tests.map boolReduced)) ∧
        exprWidth disc = n ∧
        cs.length = n + 1 ∧
        (∀ i, i < n →
          ∃ s, cs.get? i
              = some (.ifPat (some s), stmtGet ((d.bodies.get? i).getD []) dom) ∧
            s.data.length = n ∧
            bitAt s.data i = '1' ∧
            (∀ j, j < i → bitAt s.data j = '-')) ∧
        cs.get? n = some (.ifPat none, stmtGet ((d.bodies.get? n).getD []) dom)) := by
  subst hn
  have hpop : popCtrl b = (none, ifLower d {b with ctrl_stack := rest}) := by
    unfold popCtrl
    rw [hstack]
  refine ⟨by rw [hpop], ?_, ?_⟩
  · intro dom hdom
    rw [hpop]
    unfold ifLower
    exact appendNodes_lookup_not_mem _ _ _ _ hdom
  · intro dom hdom
    obtain ⟨s1, s2, s3, s4⟩ := ifCasesGo_spec dom d.tests.length d.tests d.bodies 0 hb
    refine ⟨.cat (ExprList.ofList (d.tests.map boolReduced)),
            (ifCasesGo dom d.tests.length (d.tests.map some ++ [none]) d.bodies 0).2,
            ?_, rfl, ?_, ?_, ?_, ?_⟩
    · rw [hpop]
      unfold ifLower
      rw [appendNodes_lookup_mem _ _ _ _ (domainsOf_nodup d.bodies) hdom]
      unfold ifNode
      dsimp only
      rw [s1]
    · show exprListWidth (ExprList.ofList (d.tests.map boolReduced)) = d.tests.length
      exact exprListWidth_boolReduced d.tests
    · exact s2
    · intro i hi
      refine ⟨ifMatchStr d.tests.length i, ?_, ?_, ?_, ?_⟩
      · have := s3 i hi
        rw [Nat.zero_add] at this
        exact this
      · show (ifMatchChars d.tests.length i).length = d.tests.length
        exact ifMatchChars_length _ _ hi
      · show bitAt (ifMatchChars d.tests.length i) i = '1'
        exact bitAt_ifMatchChars_self _ _ hi
      · intro j hj
        show bitAt (ifMatchChars d.tests.length i) j = '-'
        exact bitAt_ifMatchChars_lt _ _ _ hi hj
    · exact s4

/-- Witness for C2 on the one-test chain: closing the frame succeeds and
appends one branch node with a one-bit discriminant to `"comb"`. -/
theorem if_else_chain_priority_lowering_witness :
    (popCtrl c2Builder).1 = none ∧
    ∃ disc cs,
      stmtGet (popCtrl c2Builder).2.statements "comb"
        = (stmtGet c2Builder.statements "comb").push (.switch disc cs) ∧
      exprWidth disc = 1 ∧ cs.length = 2 := by
  obtain ⟨h1, _, h3⟩ := if_else_chain_priority_lowering c2IfData [] c2Builder 1 rfl rfl rfl
  obtain ⟨disc, cs, hc1, _, hc3, hc4, _⟩ := h3 "comb" (by decide)
  exact ⟨h1, disc, cs, hc1, hc3, hc4⟩

/-! ## C8 — FSM "ongoing" indicators and elaboration -/

theorem alLookup_eq_none {κ α : Type} [DecidableEq κ] (m : List (κ × α)) (k : κ)
    (h : k ∉ m.map (·.1)) : alLookup m k = none := by
  induction m with
  | nil => rfl
  | cons p rest ih =>
    have hne : ¬ p.1 = k := by
      intro hh
      exact h (by simp [hh])
    rw [alLookup, if_neg hne]
    exact ih (fun hh => h (by simp [hh]))

theorem fsmLower_spec (id : Nat) (b : Builder) (fd : FsmData) (i0 : Nat)
    (hfd : b.fsmDatas.get? id = some fd) (hne : fd.states ≠ [])
    (hinit : fsmInitEnc fd = some i0) :
    fsmLower id b
      = (none,
         appendNodes
           (fun dom => .switch (.var b.nextSig (rangeWidth fd.encoding.length))
             (fsmCasesNode fd.encoding fd.states dom))
           (domainsOf (fd.states.map (·.2)))
           {b with fsmDatas := b.fsmDatas.set id
                     {fd with decoding := fd.encoding.foldl
                                (fun dec p => alSet dec p.2 p.1) fd.decoding,
                              signal := some { id := b.nextSig,
                                               width := rangeWidth fd.encoding.length,
                                               init := i0 }},
                   nextSig := b.nextSig + 1,
                   top_comb := b.top_comb.append (Stmts.ofList (fd.ongoing.map
                     (ongoingStmt (.var b.nextSig (rangeWidth fd.encoding.length))
                       fd.encoding)))}) := by
  have hne' : fd.states.isEmpty = false := by
    cases hs : fd.states with
    | nil => exact absurd hs hne
    | cons a l => rfl
  unfold fsmLower
  rw [hfd]
  dsimp only
  rw [if_neg (by rw [hne']; simp), hinit]

theorem elabFold_lookup (reg : List FsmData) :
    ∀ (entries : List (String × Stmts)) (fr : Fragment) (k : String),
      (entries.map (·.1)).Nodup →
      alLookup (entries.foldl (elabStep reg) fr).statements k
        = match alLookup entries k with
          | some ss =>
            some (((alLookup fr.statements k).getD .nil).append (resolveStmts reg ss))
          | none => alLookup fr.statements k := by
  intro entries
  induction entries with
  | nil =>
    intro fr k h
    rfl
  | cons p rest ih =>
    intro fr k h
    have h' : (p.1 :: rest.map (·.1)).Nodup := by simpa using h
    have hnotin : p.1 ∉ rest.map (·.1) := (List.nodup_cons.mp h').1
    have hnd : (rest.map (·.1)).Nodup := (List.nodup_cons.mp h').2
    simp only [List.foldl_cons]
    rw [ih (elabStep reg fr p) k hnd]
    by_cases hk : p.1 = k
    · subst hk
      rw [alLookup_eq_none rest p.1 hnotin]
      have hlk : alLookup (p :: rest) p.1 = some p.2 := by
        rw [alLookup, if_pos rfl]
      rw [hlk]
      show alLookup (fragAddStatements fr.statements p.1 (resolveStmts reg p.2)) p.1 = _
      unfold fragAddStatements
      rw [alLookup_alSet_self]
    · have hlk : alLookup (p :: rest) k = alLookup rest k := by
        rw [alLookup, if_neg hk]
      rw [hlk]
      have hfr : alLookup (elabStep reg fr p).statements k = alLookup fr.statements k := by
        show alLookup (fragAddStatements fr.statements p.1 (resolveStmts reg p.2)) k = _
        unfold fragAddStatements
        exact alLookup_alSet_other _ _ _ _ (fun hh => hk hh.symm)
      rw [hfr]

/-- Claim C8: closing an FSM frame with at least one state appends, for
each named state, the combinational assignment
`ongoing_signal = (state_signal == encoding[state])` to the builder's
top-level combinational accumulator — the per-domain statement map only
receives the lowered state-keyed branch nodes, one per touched domain and
nothing elsewhere, regardless of the FSM's driving domain (first
conjunct). At elaboration the top-level combinational accumulator is
added to the fragment under the `"comb"` domain — after the resolved
per-domain statements — and each of its left-hand signals is registered
as driven by `"comb"` (second conjunct). -/
theorem fsm_ongoing_comb_accumulator_and_elaboration :
    (∀ (b : Builder) (id : Nat) (rest : List Frame) (fd : FsmData) (i0 : Nat),
      b.ctrl_stack = .fsmF id :: rest →
      b.fsmDatas.get? id = some fd →
      fd.states ≠ [] →
      fsmInitEnc fd = some i0 →
      (popCtrl b).1 = none ∧
      (popCtrl b).2.top_comb
        = b.top_comb.append (Stmts.ofList (fd.ongoing.map
            (ongoingStmt (.var b.nextSig (rangeWidth fd.encoding.length)) fd.encoding))) ∧
      (∀ dom, dom ∈ domainsOf (fd.states.map (·.2)) →
        stmtGet (popCtrl b).2.statements dom
          = (stmtGet b.statements dom).push
              (.switch (.var b.nextSig (rangeWidth fd.encoding.length))
                (fsmCasesNode fd.encoding fd.states dom))) ∧
      (∀ dom, dom ∉ domainsOf (fd.states.map (·.2)) →
        stmtGet (popCtrl b).2.statements dom = stmtGet b.statements dom)) ∧
    (∀ (b : Builder),
      b.ctrl_stack = [] →
      (b.statements.map (·.1)).Nodup →
      (elaborate b).1 = none ∧
      alLookup (elaborate b).2.2.statements "comb"
        = some ((resolveStmts b.fsmDatas (stmtGet b.statements "comb")).append b.top_comb) ∧
      ∃ front, (elaborate b).2.2.drivers
        = front ++ (stmtsLhs b.top_comb).map (fun s => (s, "comb"))) := by
  constructor
  · intro b id rest fd i0 hstack hfd hne hinit
    have hpop : popCtrl b = fsmLower id {b with ctrl_stack := rest} := by
      unfold popCtrl
      rw [hstack]
    rw [hpop, fsmLower_spec id {b with ctrl_stack := rest} fd i0 hfd hne hinit]
    refine ⟨rfl, ?_, ?_, ?_⟩
    · exact (appendNodes_fields _ _ _).2.2.1
    · intro dom hdom
      rw [appendNodes_lookup_mem _ _ _ _ (domainsOf_nodup _) hdom]
    · intro dom hdom
      rw [appendNodes_lookup_not_mem _ _ _ _ hdom]
  · intro b hstack hkeys
    have hflush : flushAll b = (none, b) := by
      unfold flushAll
      rw [hstack]
      rfl
    unfold elaborate
    rw [hflush]
    dsimp only
    refine ⟨rfl, ?_, ?_⟩
    · show alLookup (fragAddStatements
          (b.statements.foldl (elabStep b.fsmDatas)
            { statements := [], drivers := [] }).statements "comb" b.top_comb) "comb" = _
      unfold fragAddStatements
      rw [alLookup_alSet_self]
      rw [elabFold_lookup b.fsmDatas b.statements { statements := [], drivers := [] }
            "comb" hkeys]
      cases hc : alLookup b.statements "comb" with
      | some ss => simp [stmtGet, hc, Stmts.append]
      | none => simp [stmtGet, hc, resolveStmts, Stmts.append]
    · exact ⟨(b.statements.foldl (elabStep b.fsmDatas)
        { statements := [], drivers := [] }).drivers, rfl⟩

/-- Witness for C8: popping the frame succeeds, the ongoing equality lands
in the top-level combinational accumulator, `"sync"` receives exactly the
branch node, and `"comb"` receives nothing; elaborating the popped
builder puts the accumulator under `"comb"` with its signal driven
combinationally. -/
theorem fsm_ongoing_comb_accumulator_and_elaboration_witness :
    (popCtrl c8Builder).1 = none ∧
    (popCtrl c8Builder).2.top_comb
      = .cons (.assign 3 (.eqConst (.var 4 0) 0)) .nil ∧
    stmtGet (popCtrl c8Builder).2.statements "comb" = .nil ∧
    alLookup (elaborate (popCtrl c8Builder).2).2.2.statements "comb"
      = some (.cons (.assign 3 (.eqConst (.var 4 0) 0)) .nil) ∧
    ∃ front, (elaborate (popCtrl c8Builder).2).2.2.drivers
      = front ++ [(3, "comb")] := by
  obtain ⟨hmain, helab⟩ := fsm_ongoing_comb_accumulator_and_elaboration
  obtain ⟨h1, h2, _, h4⟩ := hmain c8Builder 0 [] c8Fsm 0 rfl rfl
    (List.cons_ne_nil _ _) rfl
  obtain ⟨e1, e2, e3⟩ := helab (popCtrl c8Builder).2 rfl (by decide)
  refine ⟨h1, h2, h4 "comb" (by decide), ?_, ?_⟩
  · rw [e2]
    rfl
  · obtain ⟨front, hfront⟩ := e3
    refine ⟨front, ?_⟩
    rw [hfront]
    rfl

